import Mathlib

/-!
# Verification of the SEC filing scraper's extraction pipeline (parser.py)

This file is a shallow embedding, in Lean 4, of the core extraction pipeline of
the repository (file `parser.py`): the value normalizer `parse_financial_value`,
the table-header resolver `parse_table_headers`, the unit resolver
`find_table_units`, the row extractor inside `scrape_data_from_tables`, the
keyword-scorer fallback `find_and_scrape_financial_statements_fallback`, the
guided scrape `process_guided_scrape`, and the orchestrator
`process_single_filing`.

Modelling conventions:
* Python strings are Lean `String`s; Python `float` values produced by parsing
  decimal text are modelled as `ℚ` (every value the parser can produce is an
  exact decimal, so this is faithful for parsing).
* A table cell is modelled by its text (the result of
  `cell.get_text(" ", strip=True)`); a row is the list of its cell texts; the
  `get_text` of a larger node is modelled by joining the contained texts with
  a single space.
* Python regular-expression scans (`re.findall`, `re.search`) are implemented
  as fuel-based character scanners that reproduce the leftmost, first-
  alternative, greedy matching the specific patterns in the source exhibit.
* The classification oracle (`llm_analyzer.py`) is an external capability: its
  results (validation verdict, category → ToC-entry mapping) are inputs of the
  orchestrator model, each an `Except Unit _` so that an oracle call that
  raises is representable.  Document-tree navigation (anchor resolution,
  section slicing) is likewise abstracted: a ToC candidate carries the list of
  mapped statements together with the tables of each sliced section.
* Mutation of shared Python state (`all_data_points`, `status_report`, the
  BeautifulSoup tree) is modelled by explicit state passing.
-/

namespace SecScraper

/-! ## Basic string helpers

Core `String` operations such as `String.replace` or `String.trim` do not
reduce inside the kernel, so the Python string operations the source uses are
re-implemented here over `List Char`; every definition in this file therefore
evaluates on concrete inputs by `decide`/`rfl`. -/

/-- Python `str.strip()`: drop whitespace from both ends. -/
def pyTrim (cs : List Char) : List Char :=
  ((cs.dropWhile Char.isWhitespace).reverse.dropWhile Char.isWhitespace).reverse

/-- Strict lexicographic order on character lists, by code point — Python's
`<` on strings. -/
def charListLt : List Char → List Char → Bool
  | [], [] => false
  | [], _ :: _ => true
  | _ :: _, [] => false
  | a :: as, b :: bs => if a = b then charListLt as bs else decide (a < b)

/-- Decimal digits of a natural number (fuel-based; `fuel ≥ n` suffices). -/
def natDigitsGo : ℕ → ℕ → List Char
  | 0, _ => []
  | _, 0 => []
  | fuel + 1, n => natDigitsGo fuel (n / 10) ++ [Char.ofNat (48 + n % 10)]

/-- Python `str(n)` for a natural number. -/
def natToStr (n : ℕ) : String :=
  if n = 0 then "0" else String.mk (natDigitsGo n n)

/-- Python `str.isdigit()` restricted to ASCII digits: true iff the string is
nonempty and all characters are digits. -/
def pyIsDigit (s : String) : Bool :=
  !s.toList.isEmpty && s.toList.all Char.isDigit

/-- Value of a list of digit characters read in base 10. -/
def digitsVal (ds : List Char) : ℕ :=
  ds.foldl (fun a c => a * 10 + (c.toNat - 48)) 0

/-- Python `float(...)` on the cleaned strings `parse_financial_value` feeds
it: an optional sign, then digits with at most one decimal point and at least
one digit in total.  (The exotic inputs Python's `float` also accepts —
exponents, `inf`, `nan`, underscores — cannot be produced by the cleaning
steps that precede the call in `parser.py` for the inputs considered here.) -/
def pyFloat? (s : String) : Option ℚ :=
  let cs := s.toList
  let signRest : ℤ × List Char :=
    match cs with
    | '-' :: t => (-1, t)
    | '+' :: t => (1, t)
    | t => (1, t)
  let sign := signRest.1
  let rest := signRest.2
  let intDigits := rest.takeWhile Char.isDigit
  let rest2 := rest.dropWhile Char.isDigit
  match rest2 with
  | [] =>
      if intDigits.isEmpty then none
      else some (mkRat (sign * (digitsVal intDigits : ℤ)) 1)
  | '.' :: frac =>
      if frac.all Char.isDigit && !(intDigits.isEmpty && frac.isEmpty) then
        some (mkRat
          (sign * ((digitsVal intDigits * 10 ^ frac.length
            + digitsVal frac : ℕ) : ℤ))
          (10 ^ frac.length))
      else none
  | _ => none

/-- `parser.py`, `parse_financial_value`: strip, drop `$` and `,`; a lone dash
or em-dash is `0.0`; a `(...)`-wrapped string keeps only digits and dots
(`re.sub(r'[^\d.]', '', ...)`) and is negated; otherwise the cleaned string is
handed to `float`, with parse failure returned as `none`. -/
def parse_financial_value (value_str : String) : Option ℚ :=
  if value_str.toList.isEmpty then none
  else
    let cleaned :=
      (pyTrim value_str.toList).filter (fun c => !(c == '$') && !(c == ','))
    if cleaned == ['—'] || cleaned == ['-'] then some 0
    else if cleaned.isEmpty then none
    else
      let isNeg := cleaned.head? == some '(' && cleaned.getLast? == some ')'
      if isNeg then
        pyFloat? (String.mk
          ('-' :: cleaned.filter (fun c => c.isDigit || c = '.')))
      else
        pyFloat? (String.mk cleaned)

/-! ## The row-value tokenizer

`scrape_data_from_tables` collects candidate value substrings with
`re.findall(r'(\([\d,.-]+\)|—|[\d,.-]+)', full_row_text)`.  The scanner below
reproduces that scan: at each position it first tries a parenthesized run of
`[0-9,.-]` characters, then the em-dash, then a bare run of those characters;
on failure it advances one character. -/

/-- A character of the value class `[\d,.-]`. -/
def isValChar (c : Char) : Bool :=
  c.isDigit || c = ',' || c = '.' || c = '-'

/-- Fuel-based scanner for the value-token regular expression. -/
def scanValues : ℕ → List Char → List String
  | 0, _ => []
  | _, [] => []
  | fuel + 1, c :: cs =>
    if c = '(' then
      let run := cs.takeWhile isValChar
      let rest := cs.dropWhile isValChar
      match run, rest with
      | _ :: _, ')' :: rest2 =>
          String.mk ('(' :: run ++ [')']) :: scanValues fuel rest2
      | _, _ => scanValues fuel cs
    else if c = '—' then
      "—" :: scanValues fuel cs
    else if isValChar c then
      String.mk (c :: cs.takeWhile isValChar) ::
        scanValues fuel (cs.dropWhile isValChar)
    else
      scanValues fuel cs

/-- All value tokens of a row's joined text, in order. -/
def extractValues (s : String) : List String :=
  scanValues s.length s.toList

/-! ## The header year/date scanner

`parse_table_headers` scans each header row's text with
`re.findall(r'\b((?:Jan|...|Dec)[a-z]*\.?\s+\d{1,2},\s+20\d{2})\b|\b(20\d{2})\b',
re.IGNORECASE)` and, for a full-date match, extracts the year with
`re.search(r'(20\d{2})', full_date)`.  In a full-date match the day has at most
two digits and is followed by a comma, so the first `20\d{2}` inside the match
is always the trailing year; the scanner below therefore returns the year of
each match directly. -/

/-- Python regex word character `\w` (ASCII): letters, digits, underscore. -/
def isWordChar (c : Char) : Bool :=
  c.isAlphanum || c = '_'

/-- No word boundary needed: true when the next character (if any) is not a
word character. -/
def boundaryAfter (cs : List Char) : Bool :=
  match cs with
  | [] => true
  | c :: _ => !isWordChar c

/-- The three leading characters spell a month name abbreviation,
case-insensitively. -/
def monthStart (cs : List Char) : Bool :=
  match cs with
  | a :: b :: c :: _ =>
      ["jan", "feb", "mar", "apr", "may", "jun",
       "jul", "aug", "sep", "oct", "nov", "dec"].contains
        (String.mk [a.toLower, b.toLower, c.toLower])
  | _ => false

/-- Match `\d{1,2},` at the head of the list: two digits then a comma, or one
digit then a comma. -/
def dropDayComma (cs : List Char) : Option (List Char) :=
  match cs with
  | a :: b :: rest =>
    if a.isDigit then
      if b.isDigit then
        match rest with
        | ',' :: rest2 => some rest2
        | _ => none
      else if b = ',' then some rest
      else none
    else none
  | _ => none

/-- Match `\s+` at the head of the list. -/
def dropWs1 (cs : List Char) : Option (List Char) :=
  if (cs.takeWhile Char.isWhitespace).isEmpty then none
  else some (cs.dropWhile Char.isWhitespace)

/-- Match `20\d{2}\b` at the head of the list, returning the year string and
the rest. -/
def matchYear (cs : List Char) : Option (String × List Char) :=
  match cs with
  | '2' :: '0' :: a :: b :: rest =>
      if a.isDigit && b.isDigit && boundaryAfter rest then
        some (String.mk ['2', '0', a, b], rest)
      else none
  | _ => none

/-- Match the full-date alternative
`(?:Jan|...|Dec)[a-z]*\.?\s+\d{1,2},\s+20\d{2}\b` at the head of the list,
returning the year of the matched date and the rest. -/
def matchFullDate (cs : List Char) : Option (String × List Char) :=
  if monthStart cs then
    let afterLetters := (cs.drop 3).dropWhile Char.isAlpha
    let afterDot :=
      match afterLetters with
      | '.' :: t => t
      | t => t
    match dropWs1 afterDot with
    | none => none
    | some afterWs =>
      match dropDayComma afterWs with
      | none => none
      | some afterDay =>
        match dropWs1 afterDay with
        | none => none
        | some beforeYear => matchYear beforeYear
  else none

/-- Fuel-based scan of a header text for year tokens.  The Boolean argument
records whether the previous character was a word character (for the `\b`
before each alternative); both alternatives end in a digit, so after a match
the flag is true. -/
def scanYears : ℕ → Bool → List Char → List String
  | 0, _, _ => []
  | _, _, [] => []
  | fuel + 1, prevW, c :: cs =>
    match if prevW then none else matchFullDate (c :: cs) with
    | some (y, rest) => y :: scanYears fuel true rest
    | none =>
      match if prevW then none else matchYear (c :: cs) with
      | some (y, rest) => y :: scanYears fuel true rest
      | none => scanYears fuel (isWordChar c) cs

/-- Join character lists with a single space between them. -/
def joinSpace : List (List Char) → List Char
  | [] => []
  | [x] => x
  | x :: xs => x ++ ' ' :: joinSpace xs

/-- `row.get_text(" ", strip=True)`, modelled as the cell texts joined by a
single space. -/
def rowText (cells : List String) : String :=
  String.mk (joinSpace (cells.map String.toList))

/-- All year tokens found in a header row's text, in scan order. -/
def yearTokens (s : String) : List String :=
  scanYears s.length false s.toList

/-- Insert into a descending-sorted list: walk past strictly greater
elements, then place the element (before any equal one — stable, as Python's
sort is). -/
def insertDesc (x : String) : List String → List String
  | [] => [x]
  | y :: ys =>
    if charListLt x.toList y.toList then y :: insertDesc x ys
    else x :: y :: ys

/-- `sorted(years_found, reverse=True)`: a stable descending sort by Python
string order (code-point lexicographic). -/
def sortYearsDesc (l : List String) : List String :=
  l.foldr insertDesc []

/-- `parser.py`, `parse_table_headers`: walk the first 10 rows; the first row
whose text yields at least one year token determines the result, sorted
descending; otherwise the empty list. -/
def parse_table_headers (rows : List (List String)) : List String :=
  match (rows.take 10).find? (fun r => !(yearTokens (rowText r)).isEmpty) with
  | some r => sortYearsDesc (yearTokens (rowText r))
  | none => []

/-! ## Tables, contexts and data points -/

/-- A catalogued table: its ordinal (`table_map[...]["number"]`), its assigned
id (`table_map[...]["id"]`), its rows of cell texts, and the `(name, text)`
pairs of its preceding sibling tags (for the unit resolver). -/
structure STable where
  number : ℕ
  id : String
  rows : List (List String)
  prevSiblings : List (String × String)
deriving DecidableEq, Repr

/-- The per-filing/per-section scraping context spread into each data point
(`base_context` plus `table_description`). -/
structure Context where
  symbol : String
  form_type : String
  date_filed : String
  period_end_date : String
  table_description : String
deriving DecidableEq, Repr

/-- One extracted data point, as appended by `scrape_data_from_tables`. -/
structure DataPoint where
  ctx : Context
  metric : String
  value : ℚ
  units : String
  fiscal_period : String
  category : String
  table_number : ℕ
  href : String
deriving DecidableEq, Repr

/-! ## Unit resolver

`find_table_units` searches the first 5 rows, then up to 15 preceding sibling
tags whose name is `p`/`div`/`span`/`b`/`strong`, for
`re.search(r'\((?:in\s+)?(?:millions|thousands|billions)[^)]*\)', re.IGNORECASE)`
and returns the first match's text. -/

/-- The characters at the head of the list spell `w`, case-insensitively. -/
def headIsWord (w : String) (cs : List Char) : Bool :=
  ((cs.take w.length).map Char.toLower) = w.toList

/-- Try to match the unit pattern with the opening parenthesis already
consumed; returns the matched text including both parentheses, and assumes
`pre` holds the characters consumed so far in reverse.  Returns the body of
the match (between the parentheses). -/
def matchUnitBody (cs : List Char) : Option (List Char) :=
  let afterIn :=
    if headIsWord "in" cs then
      let t := cs.drop 2
      if (t.takeWhile Char.isWhitespace).isEmpty then cs
      else t.dropWhile Char.isWhitespace
    else cs
  let tryWord := fun (w : String) (t : List Char) =>
    if headIsWord w t then some (t.drop w.length) else none
  match tryWord "millions" afterIn with
  | some rest => some (cs.take (cs.length - rest.length) ++
      rest.takeWhile (fun c => c ≠ ')'))
  | none =>
    match tryWord "thousands" afterIn with
    | some rest => some (cs.take (cs.length - rest.length) ++
        rest.takeWhile (fun c => c ≠ ')'))
    | none =>
      match tryWord "billions" afterIn with
      | some rest => some (cs.take (cs.length - rest.length) ++
          rest.takeWhile (fun c => c ≠ ')'))
      | none => none

/-- Does the tail after the candidate body close with `)`?  Helper for the
unit scan: given the original list after `(` and the matched body, the match
succeeds iff the next character is `)`. -/
def scanUnits : ℕ → List Char → Option String
  | 0, _ => none
  | _, [] => none
  | fuel + 1, c :: cs =>
    if c = '(' then
      match matchUnitBody cs with
      | some body =>
        match cs.drop body.length with
        | ')' :: _ => some (String.mk ('(' :: body ++ [')']))
        | _ => scanUnits fuel cs
      | none => scanUnits fuel cs
    else scanUnits fuel cs

/-- First unit-pattern match in a text, if any. -/
def unitSearch (s : String) : Option String :=
  scanUnits s.length s.toList

/-- `parser.py`, `find_table_units`. -/
def find_table_units (t : STable) : Option String :=
  match (t.rows.take 5).findSome? (fun r => unitSearch (rowText r)) with
  | some u => some u
  | none =>
    ((t.prevSiblings.take 15).filter (fun p =>
        p.1 = "p" || p.1 = "div" || p.1 = "span" ||
        p.1 = "b" || p.1 = "strong")).findSome?
      (fun p => unitSearch p.2)

/-! ## Row extractor (`scrape_data_from_tables`) -/

/-- The emission loop
`for i, period in enumerate(fiscal_periods): if i < len(value_strings): ...`:
pair periods with value strings positionally and keep the pairs whose value
parses to a number. -/
def emitPoints (periods vs : List String) (units : String) (ctx : Context)
    (tno : ℕ) (href metric cat : String) : List DataPoint :=
  (periods.zip vs).filterMap (fun pv =>
    match parse_financial_value pv.2 with
    | some v => some ⟨ctx, metric, v, units, pv.1, cat, tno, href⟩
    | none => none)

/-- One iteration of the row loop of `scrape_data_from_tables`: returns the
data points the row emits and the updated `current_category`. -/
def processRow (periods : List String) (units : String) (ctx : Context)
    (tno : ℕ) (href : String) (cat : String) (cells : List String) :
    List DataPoint × String :=
  match cells with
  | [] => ([], cat)
  | metric :: rest =>
    if metric = "" || pyIsDigit metric then ([], cat)
    else
      let vs := extractValues (rowText rest)
      if vs.isEmpty then ([], metric)
      else if vs.length = periods.length then
        (emitPoints periods vs units ctx tno href metric cat, cat)
      else ([], cat)

/-- The row loop of `scrape_data_from_tables` over all rows of a table,
threading `current_category` (initially `""`). -/
def processRows (periods : List String) (units : String) (ctx : Context)
    (tno : ℕ) (href : String) : List (List String) → String → List DataPoint
  | [], _ => []
  | r :: rs, cat =>
    let pc := processRow periods units ctx tno href cat r
    pc.1 ++ processRows periods units ctx tno href rs pc.2

/-- `scrape_data_from_tables` restricted to one catalogued table: resolve the
header; with zero fiscal periods the table is skipped (a warning is logged);
otherwise scrape every row.  `toc_href = none` models the fallback call, where
the href defaults to the table's own anchor. -/
def scrape_table (t : STable) (ctx : Context) (toc_href : Option String) :
    List DataPoint :=
  let fiscal_periods := parse_table_headers t.rows
  if fiscal_periods.isEmpty then []
  else
    let units := (find_table_units t).getD "N/A"
    processRows fiscal_periods units ctx t.number
      (toc_href.getD ("#" ++ t.id)) t.rows ""

/-- `scrape_data_from_tables` over a list of tables (every table of the model
is catalogued, so the `table_map` guard never skips). -/
def scrapeTables (ts : List STable) (ctx : Context) (toc_href : Option String) :
    List DataPoint :=
  ts.foldl (fun acc t => acc ++ scrape_table t ctx toc_href) []

/-! ## Status reports -/

/-- `status_report['statements']`: an association list from statement category
to status string, in insertion order (Python dicts preserve it). -/
abbrev Report := List (String × String)

/-- Assignment `report[k] = v`: overwrite the first binding of `k`, appending
when absent (in the pipeline every category is pre-populated). -/
def setStatus : Report → String → String → Report
  | [], k, v => [(k, v)]
  | (k0, v0) :: rest, k, v =>
    if k0 = k then (k0, v) :: rest else (k0, v0) :: setStatus rest k v

/-- Status lookup (categories are always present in the pipeline's reports). -/
def lookupStatus (r : Report) (k : String) : String :=
  ((r.find? (fun p => p.1 == k)).map Prod.snd).getD ""

/-- The initial `{stype: 'Missing' for stype in terms_dict.keys()}` report. -/
def initialReport (cats : List String) : Report :=
  cats.map (fun c => (c, "Missing"))

/-- Python `str.title()` on ASCII text: the first letter of each run of
letters is uppercased, the rest lowercased. -/
def pyTitleGo : Bool → List Char → List Char
  | _, [] => []
  | prevAlpha, c :: cs =>
    if c.isAlpha then
      (if prevAlpha then c.toLower else c.toUpper) :: pyTitleGo true cs
    else c :: pyTitleGo false cs

/-- `s_type.replace('_', ' ').title()`. -/
def statementTitle (s : String) : String :=
  String.mk (pyTitleGo false
    (s.toList.map (fun c => if c = '_' then ' ' else c)))

/-! ## Keyword-scorer fallback
(`find_and_scrape_financial_statements_fallback`) -/

/-- The nested term dictionary: a category's entry is either a list of terms
or a dictionary of sub-groups (`get_all_terms` flattens it). -/
inductive TermTree where
  | leaf : List String → TermTree
  | node : List (String × TermTree) → TermTree
deriving Repr

mutual

/-- `get_all_terms`: flatten a term tree, in traversal order. -/
def get_all_terms : TermTree → List String
  | .leaf l => l
  | .node cs => get_all_terms_children cs

/-- `get_all_terms` over the values of a dictionary node, in order. -/
def get_all_terms_children : List (String × TermTree) → List String
  | [] => []
  | (_, t) :: rest => get_all_terms t ++ get_all_terms_children rest

end

/-- `needle` begins the list `hay`. -/
def headMatches : List Char → List Char → Bool
  | [], _ => true
  | _ :: _, [] => false
  | n :: ns, h :: hs => n = h && headMatches ns hs

/-- Python `needle in hay` for strings: contiguous-substring test. -/
def containsSub (hay needle : List Char) : Bool :=
  match hay with
  | [] => needle.isEmpty
  | _ :: t => headMatches needle hay || containsSub t needle

/-- `table.get_text(" ", strip=True)`, modelled as all cell texts joined by a
single space. -/
def tableText (t : STable) : String :=
  String.mk (joinSpace (t.rows.map (fun r => (rowText r).toList)))

/-- A candidate table with its per-category scores
(`{'table_obj': ..., 'scores': ..., 'number': ...}`). -/
structure ScoredTable where
  table : STable
  scores : List (String × ℕ)
  number : ℕ
deriving DecidableEq, Repr

/-- `scores[s_type] = sum(1 for term in terms if term in text)`: one point per
term (duplicated terms counted separately) occurring in the lowercased table
text. -/
def scoreTable (flat : List (String × List String)) (text : List Char) :
    List (String × ℕ) :=
  flat.map (fun p =>
    (p.1, (p.2.filter (fun term => containsSub text term.toList)).length))

/-- The candidate-collection loop: skip tables with a `%` in the first 500
characters of their lowercased text; keep a table iff some category's score
exceeds 5. -/
def scoredTables (flat : List (String × List String)) (tables : List STable) :
    List ScoredTable :=
  tables.filterMap (fun t =>
    let text := (tableText t).toList.map Char.toLower
    if (text.take 500).contains '%' then none
    else
      let scores := scoreTable flat text
      if scores.any (fun p => decide (5 < p.2)) then some ⟨t, scores, t.number⟩
      else none)

/-- `x['scores'].get(s_type, 0)`. -/
def lookupScore (sc : List (String × ℕ)) (cat : String) : ℕ :=
  ((sc.find? (fun p => p.1 == cat)).map Prod.snd).getD 0

/-- Python `max(..., key=..., default=None)`: fold left keeping the current
best; a later element replaces it only with a strictly greater key, so the
first of several tied maxima wins. -/
def pickAcc (score : ScoredTable → ℕ) :
    Option ScoredTable → List ScoredTable → Option ScoredTable
  | best, [] => best
  | none, c :: cs => pickAcc score (some c) cs
  | some b, c :: cs =>
    pickAcc score (some (if score b < score c then c else b)) cs

/-- The `max((c for c in scored_tables if c['table_obj'] not in
found_statements.values()), key=..., default=None)` expression. -/
def pickBest (cands : List ScoredTable) (claimed : List STable) (cat : String) :
    Option ScoredTable :=
  pickAcc (fun c => lookupScore c.scores cat) none
    (cands.filter (fun c => decide (c.table ∉ claimed)))

/-- The assignment loop `for s_type in terms_dict.keys(): ...`, accumulating
`found_statements` in insertion order; a candidate is assigned only with a
score above 10 for the category, and an assigned table is excluded for the
remaining categories. -/
def assignGo (cands : List ScoredTable) :
    List String → List (String × ScoredTable) → List (String × ScoredTable)
  | [], acc => acc
  | cat :: rest, acc =>
    match pickBest cands (acc.map (fun p => p.2.table)) cat with
    | some b =>
      if 10 < lookupScore b.scores cat then
        assignGo cands rest (acc ++ [(cat, b)])
      else assignGo cands rest acc
    | none => assignGo cands rest acc

/-- The scrape-and-mark loop `for s_type, table in found_statements.items()`:
scrape each selected table and set its category's status to
`'Found (Fallback)'`, unconditionally. -/
def fallbackFold (base : Context) (found : List (String × ScoredTable))
    (acc : List DataPoint × Report) : List DataPoint × Report :=
  found.foldl (fun acc pr =>
    let ctx := { base with table_description := statementTitle pr.1 }
    (acc.1 ++ scrape_table pr.2.table ctx none,
     setStatus acc.2 pr.1 "Found (Fallback)")) acc

/-- `find_and_scrape_financial_statements_fallback`: flatten the term sets,
score and select candidate tables, then scrape each selected table and mark
its category `'Found (Fallback)'`. -/
def find_and_scrape_financial_statements_fallback
    (tables : List STable) (terms_dict : List (String × TermTree))
    (base : Context) (pts0 : List DataPoint) (rep0 : Report) :
    List DataPoint × Report :=
  let flat := terms_dict.map (fun p => (p.1, get_all_terms p.2))
  let cands := scoredTables flat tables
  let found := assignGo cands (terms_dict.map Prod.fst) []
  fallbackFold base found (pts0, rep0)

/-! ## ToC-guided scraping (`process_guided_scrape`) and the orchestrator
(`process_single_filing`)

The classification oracle and the document-tree navigation are abstracted:
one mapped statement (an entry of the dictionary `classify_toc_items`
returns) carries its category, the authoritative anchor href of its ToC
entry, and the tables found in the document slice between its anchor and the
next entry's anchor.  A ToC candidate records whether
`parse_toc_table_to_index` produced a nonempty index, the oracle's validation
verdict, and the oracle's mapping; either oracle interaction may raise, which
`Except Unit _` represents. -/

/-- One category → ToC-entry mapping together with its sliced section's
tables. -/
structure MappedStatement where
  statement_type : String
  anchor_href : String
  section_tables : List STable
deriving DecidableEq, Repr

/-- The data points the scrape of one mapped statement's sliced section
appends. -/
def guidedSectionPoints (base : Context) (ms : MappedStatement) :
    List DataPoint :=
  scrapeTables ms.section_tables
    { base with table_description := statementTitle ms.statement_type }
    (some ms.anchor_href)

/-- The statement loop of `process_guided_scrape`, threading
`(statements_found_in_this_run, all_data_points, status_report)`: a section
with no tables is skipped; otherwise its tables are scraped and the category
is marked `'Found (ToC-Guided)'` exactly when the data-point count strictly
increased. -/
def guidedFold (base : Context) (mapped : List MappedStatement)
    (acc : ℕ × List DataPoint × Report) : ℕ × List DataPoint × Report :=
  mapped.foldl (fun acc ms =>
    if ms.section_tables.isEmpty then acc
    else
      let new := guidedSectionPoints base ms
      if new.isEmpty then (acc.1, acc.2.1 ++ new, acc.2.2)
      else (acc.1 + 1, acc.2.1 ++ new,
        setStatus acc.2.2 ms.statement_type "Found (ToC-Guided)")) acc

/-- `process_guided_scrape` for one obtained mapping; the Boolean result is
`statements_found_in_this_run > 0`. -/
def process_guided_scrape (base : Context) (mapped : List MappedStatement)
    (pts0 : List DataPoint) (rep0 : Report) :
    Bool × List DataPoint × Report :=
  let r := guidedFold base mapped (0, pts0, rep0)
  (decide (0 < r.1), r.2.1, r.2.2)

/-- One ToC candidate, as the orchestrator's loop sees it. -/
structure TocCandidate where
  index_ok : Bool
  validate : Except Unit Bool
  mapped : Except Unit (List MappedStatement)

/-- The candidate loop of `process_single_filing`: skip unparseable
candidates; ask the oracle to validate; on success ask for the mapping and
run the guided scrape; stop at the first candidate whose guided scrape found
at least one category.  An oracle exception aborts the loop carrying the
report as it stood. -/
def tryCandidates (base : Context) :
    List TocCandidate → List DataPoint → Report →
    Except Report (Bool × List DataPoint × Report)
  | [], pts, rep => .ok (false, pts, rep)
  | c :: rest, pts, rep =>
    if !c.index_ok then tryCandidates base rest pts rep
    else
      match c.validate with
      | .error _ => .error rep
      | .ok false => tryCandidates base rest pts rep
      | .ok true =>
        match c.mapped with
        | .error _ => .error rep
        | .ok ms =>
          let g := process_guided_scrape base ms pts rep
          if g.1 then .ok (true, g.2.1, g.2.2)
          else tryCandidates base rest g.2.1 g.2.2

/-- A table node of the parsed document before cataloguing: its attribute
dictionary and the content the pipeline reads. -/
structure RawTable where
  attrs : List (String × String)
  rows : List (List String)
  prevSiblings : List (String × String)
deriving DecidableEq, Repr

/-- BeautifulSoup `tag['k'] = v`: overwrite the attribute in place, appending
it when absent. -/
def setAttr (attrs : List (String × String)) (k v : String) :
    List (String × String) :=
  if attrs.any (fun p => p.1 == k) then
    attrs.map (fun p => if p.1 == k then (p.1, v) else p)
  else attrs ++ [(k, v)]

/-- The cataloguing loop `for i, table in enumerate(all_tables):
table['id'] = f"table-{i+1}"` — the document mutation it performs. -/
def assignIdsGo (i : ℕ) : List RawTable → List RawTable
  | [] => []
  | t :: ts =>
    { t with attrs := setAttr t.attrs "id" ("table-" ++ natToStr (i + 1)) } ::
      assignIdsGo (i + 1) ts

/-- Ids assigned to every table of the document, in document order. -/
def assignIds (ts : List RawTable) : List RawTable :=
  assignIdsGo 0 ts

/-- The `table_map` entries: each table with its ordinal and assigned id. -/
def catalogEntries (ts : List RawTable) : List STable :=
  ts.enum.map (fun p =>
    ⟨p.1 + 1, "table-" ++ natToStr (p.1 + 1), p.2.rows, p.2.prevSiblings⟩)

/-- A parsed filing document, as the orchestrator consumes it:
`extract_fiscal_period`'s result, the table nodes, and the ToC candidates
`find_all_toc_tables` discovers, in discovery order. -/
structure Doc where
  period_end_date : Option String
  rawTables : List RawTable
  tocCandidates : List TocCandidate

/-- The filing metadata joined into `base_context`. -/
structure FilingMeta where
  symbol : String
  form_type : String
  date_filed : String

/-- The body of `process_single_filing`'s `try:` block.  A thrown exception
(`Except.error`) carries the status report as it stood when raised; reading
the file is the first fallible step, and a missing period end date is an
early `return`, not an exception. -/
def filingBody (read : Except Unit Doc) (meta : FilingMeta)
    (terms_dict : List (String × TermTree)) :
    Except Report (List DataPoint × Report) :=
  let rep0 := initialReport (terms_dict.map Prod.fst)
  match read with
  | .error _ => .error rep0
  | .ok doc =>
    match doc.period_end_date with
    | none => .ok ([], rep0)
    | some ped =>
      let tables := catalogEntries doc.rawTables
      let base : Context := ⟨meta.symbol, meta.form_type, meta.date_filed,
        ped, ""⟩
      match tryCandidates base doc.tocCandidates [] rep0 with
      | .error rep => .error rep
      | .ok g =>
        if g.1 then .ok (g.2.1, g.2.2)
        else .ok (find_and_scrape_financial_statements_fallback
          tables terms_dict base g.2.1 g.2.2)

/-- `process_single_filing`: the `try ... except` wrapper — an exception
anywhere in the body yields `([], status_report)` instead of propagating. -/
def process_single_filing (read : Except Unit Doc) (meta : FilingMeta)
    (terms_dict : List (String × TermTree)) : List DataPoint × Report :=
  match filingBody read meta terms_dict with
  | .ok r => r
  | .error rep => ([], rep)

/-- The worker pool (`executor.map(worker_func, downloaded_files_info)`): one
independent orchestrator run per filing. -/
def runBatch (filings : List (Except Unit Doc × FilingMeta))
    (terms_dict : List (String × TermTree)) : List (List DataPoint × Report) :=
  filings.map (fun f => process_single_filing f.1 f.2 terms_dict)

/-! ## Specification-side definitions used by refinement comparisons -/

/-- The parenthesized-input rule exactly as the specification words it: after
the same cleaning, strip the two parentheses, prefix `-`, and parse. -/
def claimedParenValue (value_str : String) : Option ℚ :=
  let cleaned :=
    (pyTrim value_str.toList).filter (fun c => !(c == '$') && !(c == ','))
  if cleaned.head? == some '(' && cleaned.getLast? == some ')' then
    pyFloat? (String.mk ('-' :: (cleaned.drop 1).dropLast))
  else none

/-- The amended parenthesized-input rule: after the same cleaning, remove
every character other than digits and decimal points, prefix `-`, and
parse. -/
def amendedParenValue (value_str : String) : Option ℚ :=
  let cleaned :=
    (pyTrim value_str.toList).filter (fun c => !(c == '$') && !(c == ','))
  pyFloat? (String.mk ('-' :: cleaned.filter (fun c => c.isDigit || c = '.')))

/-- The relation "not strictly below": descending order between adjacent
elements of the sort's output. -/
def geStr (a b : String) : Prop :=
  charListLt a.toList b.toList = false

/-- `guidedCountL` computes `statements_found_in_this_run` of
`process_guided_scrape` on its own: the number of mapped statements whose
sliced section has tables and whose scrape appends at least one point. -/
def guidedCountL (base : Context) : List MappedStatement → ℕ
  | [] => 0
  | ms :: rest =>
    if ms.section_tables.isEmpty then guidedCountL base rest
    else if (guidedSectionPoints base ms).isEmpty then guidedCountL base rest
    else guidedCountL base rest + 1

/-- A ToC-candidate attempt that raises an oracle exception: the candidate is
parseable and the validation call raises, or validation accepts and the
mapping call raises. -/
def attemptRaises (c : TocCandidate) : Prop :=
  c.index_ok = true ∧ (c.validate = .error () ∨
    (c.validate = .ok true ∧ c.mapped = .error ()))

/-- A ToC-candidate attempt that succeeds: parseable, validated, mapped, and
the guided scrape finds at least one statement. -/
def attemptSucceeds (base : Context) (c : TocCandidate) : Prop :=
  c.index_ok = true ∧ c.validate = .ok true ∧
  ∃ ms, c.mapped = .ok ms ∧ guidedCountL base ms ≠ 0

/-! ## Concrete fixtures used by counterexamples and witnesses -/

/-- Fixture context for concrete evaluations. -/
def ctxFix : Context := ⟨"FTNT", "10-K", "2024-02-01", "2023-12-31", ""⟩

/-- Fixture term set with eleven one-word balance-sheet terms. -/
def bsTermsFix : TermTree :=
  .leaf ["cash", "assets", "liabilities", "equity", "goodwill", "payable",
    "receivable", "deferred", "accrued", "inventory", "prepaid"]

/-- A table scoring 11 against `bsTermsFix` whose header resolves to zero
fiscal periods. -/
def noPeriodTableFix : STable :=
  ⟨1, "table-1",
   [["cash assets liabilities equity goodwill payable receivable deferred accrued inventory prepaid"]],
   []⟩

/-- A table matching the same terms but carrying a `%` in its first 500
characters. -/
def pctTableFix : STable :=
  ⟨3, "table-3",
   [["cash assets liabilities equity goodwill payable receivable deferred accrued inventory prepaid %"]],
   []⟩

/-- A section table with one resolvable period and one data row. -/
def sectionTableFix : STable := ⟨2, "table-2", [["", "2024"], ["Cash", "7"]], []⟩

/-- A mapped statement whose section scrape emits one data point. -/
def msFix : MappedStatement := ⟨"INCOME_STATEMENT", "#inc", [sectionTableFix]⟩

/-- A mapped statement whose sliced section has no tables. -/
def msEmptyFix : MappedStatement := ⟨"CASH_FLOW_STATEMENT", "#cf", []⟩

/-- A parseable ToC candidate the oracle rejects. -/
def candFail : TocCandidate := ⟨true, .ok false, .ok []⟩

/-- A parseable, validated ToC candidate whose guided scrape succeeds. -/
def candSucc : TocCandidate := ⟨true, .ok true, .ok [msFix]⟩

/-- Another productive candidate, placed after `candSucc` in discovery
order. -/
def candPost : TocCandidate := ⟨true, .ok true, .ok [msFix]⟩

/-- Fixture filing metadata. -/
def metaFix : FilingMeta := ⟨"FTNT", "10-K", "2024-02-01"⟩

/-- Fixture term dictionary with one category. -/
def termsFix : List (String × TermTree) :=
  [("BALANCE_SHEET_STATEMENT", bsTermsFix)]

/-- Fixture document with three ToC candidates and no period end date
missing. -/
def docFix : Doc := ⟨some "2023-12-31", [], [candFail, candSucc, candPost]⟩

/-! ## General lemmas about the descending sort -/

lemma charListLt_asymm :
    ∀ a b : List Char, charListLt a b = true → charListLt b a = false := by
  intro a
  induction a with
  | nil =>
    intro b _
    cases b with
    | nil => rfl
    | cons x xs => simp [charListLt]
  | cons x xs ih =>
    intro b hab
    cases b with
    | nil => simp [charListLt] at hab
    | cons y ys =>
      by_cases hxy : x = y
      · subst hxy
        simp only [charListLt, if_pos rfl] at hab ⊢
        exact ih ys hab
      · have hyx : ¬ y = x := fun h => hxy h.symm
        simp only [charListLt, if_neg hxy] at hab
        simp only [charListLt, if_neg hyx]
        have hlt : x < y := of_decide_eq_true hab
        simpa using not_lt_of_gt hlt

lemma insertDesc_perm (x : String) :
    ∀ l : List String, List.Perm (insertDesc x l) (x :: l) := by
  intro l
  induction l with
  | nil => exact List.Perm.refl _
  | cons y ys ih =>
    by_cases h : charListLt x.toList y.toList
    · simp only [insertDesc, if_pos h]
      exact (ih.cons y).trans (List.Perm.swap x y ys)
    · simp only [insertDesc, if_neg h]
      exact List.Perm.refl _

lemma sortYearsDesc_perm (l : List String) : List.Perm (sortYearsDesc l) l := by
  induction l with
  | nil => exact List.Perm.refl _
  | cons x xs ih => exact (insertDesc_perm x (sortYearsDesc xs)).trans (ih.cons x)

lemma insertDesc_chain (x : String) :
    ∀ l : List String, List.Chain' geStr l →
      List.Chain' geStr (insertDesc x l) ∧
      ((insertDesc x l).head? = some x ∨ (insertDesc x l).head? = l.head?) := by
  intro l
  induction l with
  | nil => exact fun _ => ⟨List.chain'_singleton x, Or.inl rfl⟩
  | cons y ys ih =>
    intro hch
    have hys : List.Chain' geStr ys := hch.tail
    by_cases h : charListLt x.toList y.toList
    · simp only [insertDesc, if_pos h]
      obtain ⟨hin, hhd⟩ := ih hys
      refine ⟨?_, Or.inr rfl⟩
      cases hh : (insertDesc x ys).head? with
      | none =>
        cases hzs : insertDesc x ys with
        | nil => simp
        | cons z zs => rw [hzs] at hh; simp at hh
      | some z =>
        cases hzs : insertDesc x ys with
        | nil => rw [hzs] at hh; simp at hh
        | cons w ws =>
          rw [hzs] at hh
          simp only [List.head?_cons, Option.some.injEq] at hh
          subst hh
          rw [hzs] at hin
          refine List.chain'_cons.mpr ⟨?_, hin⟩
          rcases hhd with hx | hy
          · rw [hzs] at hx
            simp only [List.head?_cons, Option.some.injEq] at hx
            subst hx
            exact charListLt_asymm _ _ h
          · rw [hzs] at hy
            cases ys with
            | nil => simp at hy
            | cons y2 ys2 =>
              simp only [List.head?_cons, Option.some.injEq] at hy
              subst hy
              exact (List.chain'_cons.mp hch).1
    · simp only [insertDesc, if_neg h]
      refine ⟨List.chain'_cons.mpr ⟨?_, hch⟩, Or.inl rfl⟩
      exact eq_false_of_ne_true h

lemma sortYearsDesc_chain (l : List String) :
    List.Chain' geStr (sortYearsDesc l) := by
  induction l with
  | nil => exact List.chain'_nil
  | cons x xs ih => exact (insertDesc_chain x (sortYearsDesc xs) ih).1

/-! ## General lemmas about status reports -/

lemma lookupStatus_setStatus_eq :
    ∀ (r : Report) (k v : String), lookupStatus (setStatus r k v) k = v := by
  intro r
  induction r with
  | nil => intro k v; simp [setStatus, lookupStatus]
  | cons p rest ih =>
    intro k v
    by_cases h : p.1 = k
    · simp [setStatus, h, lookupStatus]
    · simpa [setStatus, h, lookupStatus, List.find?] using ih k v

lemma lookupStatus_setStatus_ne :
    ∀ (r : Report) (k k' v : String), k' ≠ k →
      lookupStatus (setStatus r k' v) k = lookupStatus r k := by
  intro r
  induction r with
  | nil =>
    intro k k' v hne
    have hkk : (k' == k) = false := beq_eq_false_iff_ne.mpr hne
    simp [setStatus, lookupStatus, List.find?, hkk]
  | cons p rest ih =>
    intro k k' v hne
    by_cases h : p.1 = k'
    · have hkk : (k' == k) = false := beq_eq_false_iff_ne.mpr hne
      have h2 : (p.1 == k) = false := by
        apply beq_eq_false_iff_ne.mpr
        rw [h]; exact hne
      simp [setStatus, h, lookupStatus, List.find?, h2, hkk]
    · by_cases h3 : (p.1 == k) = true
      · simp [setStatus, h, lookupStatus, List.find?, h3]
      · have h3f : (p.1 == k) = false := by
          cases hb : (p.1 == k) with
          | true => exact absurd hb h3
          | false => rfl
        simp only [setStatus, if_neg h, lookupStatus, List.find?, h3f]
        exact ih k k' v hne

lemma setStatus_value_mem :
    ∀ (r : Report) (k v : String) (p : String × String),
      p ∈ setStatus r k v → p.2 = v ∨ p ∈ r := by
  intro r
  induction r with
  | nil =>
    intro k v p hp
    simp only [setStatus, List.mem_singleton] at hp
    subst hp; exact Or.inl rfl
  | cons q rest ih =>
    intro k v p hp
    by_cases h : q.1 = k
    · simp only [setStatus, if_pos h, List.mem_cons] at hp
      rcases hp with hp | hp
      · subst hp; exact Or.inl rfl
      · exact Or.inr (List.mem_cons_of_mem q hp)
    · simp only [setStatus, if_neg h, List.mem_cons] at hp
      rcases hp with hp | hp
      · subst hp; exact Or.inr (List.mem_cons_self q rest)
      · rcases ih k v p hp with h2 | h2
        · exact Or.inl h2
        · exact Or.inr (List.mem_cons_of_mem q h2)

/-! ## Claim C2 — the value normalizer -/

/-- Claim C2, counterexample.  The claim says a parenthesized input is handled
by stripping the parentheses, prefixing `-`, and parsing; on `"(12a)"` that
recipe fails to parse (`float("-12a")` raises, i.e. no value), but the code
first deletes every character other than digits and dots and returns
`-12.0`. -/
theorem C2_counterexample :
    parse_financial_value "(12a)" = some (-12) ∧
    claimedParenValue "(12a)" = none := by decide

/-- Claim C2 (amended): the four stated conversions hold, non-numeric text
yields no value, and a parenthesized cleaned input is handled by removing
every character other than digits and decimal points, prefixing `-`, and
parsing (rather than by merely stripping the parentheses). -/
theorem C2_value_normalizer :
    parse_financial_value "(1,234)" = some (-1234) ∧
    parse_financial_value "—" = some 0 ∧
    parse_financial_value "" = none ∧
    parse_financial_value "1,234.50" = some (mkRat 2469 2) ∧
    parse_financial_value "abc" = none ∧
    ∀ s : String,
      s.toList.isEmpty = false →
      (((pyTrim s.toList).filter (fun c => !(c == '$') && !(c == ','))) == ['—']
        || ((pyTrim s.toList).filter (fun c => !(c == '$') && !(c == ','))) == ['-']) = false →
      ((pyTrim s.toList).filter (fun c => !(c == '$') && !(c == ','))).isEmpty = false →
      (((pyTrim s.toList).filter (fun c => !(c == '$') && !(c == ','))).head? == some '('
        && ((pyTrim s.toList).filter (fun c => !(c == '$') && !(c == ','))).getLast? == some ')') = true →
      parse_financial_value s = amendedParenValue s := by
  refine ⟨by decide, by decide, by decide, by decide, by decide, ?_⟩
  intro s h1 h2 h3 h4
  simp only [parse_financial_value, amendedParenValue, h1, h2, h3, h4,
    Bool.false_eq_true, if_false, if_true]

/-- Claim C2, witness: the general parenthesized clause applied at
`"(1,234)"`. -/
theorem C2_value_normalizer_witness :
    parse_financial_value "(1,234)" = amendedParenValue "(1,234)" :=
  C2_value_normalizer.2.2.2.2.2 "(1,234)" (by decide) (by decide) (by decide)
    (by decide)

/-! ## Claim C3 — the header resolver -/

/-- Claim C3, counterexample.  The claim says duplicates are removed from the
resolved year tokens; the code's `sorted(years_found, reverse=True)` keeps
them: a header row reading `2024 2024 2023` resolves to three periods with a
duplicate. -/
theorem C3_counterexample :
    parse_table_headers [["2024 2024 2023"]] = ["2024", "2024", "2023"] ∧
    ¬ (parse_table_headers [["2024 2024 2023"]]).Nodup := by decide

/-- Claim C3 (amended): the header resolver returns the year tokens of the
first qualifying row among the scanned header rows, sorted in descending
order with duplicates retained (not removed); a table that resolves to zero
fiscal periods is never scraped. -/
theorem C3_header_resolver :
    (∀ (rows : List (List String)) (r : List String),
      (rows.take 10).find? (fun r => !(yearTokens (rowText r)).isEmpty) =
        some r →
      List.Perm (parse_table_headers rows) (yearTokens (rowText r)) ∧
      List.Chain' geStr (parse_table_headers rows)) ∧
    (∀ rows : List (List String),
      (rows.take 10).find? (fun r => !(yearTokens (rowText r)).isEmpty) =
        none →
      parse_table_headers rows = []) ∧
    (∀ (t : STable) (ctx : Context) (href : Option String),
      parse_table_headers t.rows = [] → scrape_table t ctx href = []) := by
  refine ⟨?_, ?_, ?_⟩
  · intro rows r h
    simp only [parse_table_headers, h]
    exact ⟨sortYearsDesc_perm _, sortYearsDesc_chain _⟩
  · intro rows h
    simp only [parse_table_headers, h]
  · intro t ctx href h
    simp only [scrape_table, h, List.isEmpty_nil, if_true]

/-- Claim C3, witness: the amended resolver facts at a concrete two-row table
and the zero-period skip at a concrete table. -/
theorem C3_header_resolver_witness :
    (List.Perm (parse_table_headers [["Revenue"], ["2023 2024"]])
       (yearTokens (rowText ["2023 2024"])) ∧
     List.Chain' geStr (parse_table_headers [["Revenue"], ["2023 2024"]])) ∧
    scrape_table ⟨7, "table-7", [["no year"]], []⟩ ctxFix none = [] :=
  ⟨C3_header_resolver.1 [["Revenue"], ["2023 2024"]] ["2023 2024"] (by decide),
   C3_header_resolver.2.2 ⟨7, "table-7", [["no year"]], []⟩ ctxFix none
     (by decide)⟩

/-! ## Claim C8 — category-header rows -/

/-- Claim C8, counterexample.  The claim says a row with a purely numeric
label becomes the current category; the code skips such rows without touching
the category: after a `["123"]` row, a data row still carries the previous
(empty) category, not `"123"`. -/
theorem C8_counterexample :
    processRows ["2024"] "N/A" ctxFix 1 "#table-1" [["123"], ["Cash", "5"]]
      "" = [⟨ctxFix, "Cash", mkRat 5 1, "N/A", "2024", "", 1, "#table-1"⟩] ∧
    ("" : String) ≠ "123" := by decide

/-- Claim C8 (amended): a row whose label is empty or purely numeric is
skipped, emitting nothing and leaving the current category unchanged; only a
row with a valid label whose remaining cells yield no numeric tokens becomes
the current category (emitting nothing). -/
theorem C8_category_headers :
    (∀ (periods : List String) (units : String) (ctx : Context) (tno : ℕ)
      (href cat metric : String) (rest : List String),
      metric = "" ∨ pyIsDigit metric = true →
      processRow periods units ctx tno href cat (metric :: rest) = ([], cat)) ∧
    (∀ (periods : List String) (units : String) (ctx : Context) (tno : ℕ)
      (href cat metric : String) (rest : List String),
      ¬ metric = "" → pyIsDigit metric = false →
      extractValues (rowText rest) = [] →
      processRow periods units ctx tno href cat (metric :: rest) =
        ([], metric)) := by
  constructor
  · intro periods units ctx tno href cat metric rest h
    rcases h with h | h
    · simp [processRow, h]
    · simp [processRow, h]
  · intro periods units ctx tno href cat metric rest h1 h2 h3
    simp [processRow, h1, h2, h3]

/-- Claim C8, witness: the empty-label, numeric-label, and category-setting
cases at concrete rows. -/
theorem C8_category_headers_witness :
    processRow ["2024"] "N/A" ctxFix 1 "#t" "Assets" ["", "5"] =
      ([], "Assets") ∧
    processRow ["2024"] "N/A" ctxFix 1 "#t" "Assets" ["123", "5"] =
      ([], "Assets") ∧
    processRow ["2024"] "N/A" ctxFix 1 "#t" "Assets" ["Current Assets"] =
      ([], "Current Assets") :=
  ⟨C8_category_headers.1 ["2024"] "N/A" ctxFix 1 "#t" "Assets" "" ["5"]
     (Or.inl rfl),
   C8_category_headers.1 ["2024"] "N/A" ctxFix 1 "#t" "Assets" "123" ["5"]
     (Or.inr (by decide)),
   C8_category_headers.2 ["2024"] "N/A" ctxFix 1 "#t" "Assets"
     "Current Assets" [] (by decide) (by decide) (by decide)⟩

/-! ## Claim C9 — document immutability -/

/-- Claim C9, counterexample.  The claim says no pipeline operation modifies
any node or attribute of the parsed document; the cataloguing step of
`process_single_filing` assigns `table['id'] = f"table-{i+1}"` to every
table, changing the document. -/
theorem C9_counterexample :
    assignIds [⟨[], [["x"]], []⟩] = [⟨[("id", "table-1")], [["x"]], []⟩] ∧
    assignIds [⟨[], [["x"]], []⟩] ≠ [⟨[], [["x"]], []⟩] := by decide

lemma assignIdsGo_eq_enumFrom :
    ∀ (ts : List RawTable) (i : ℕ),
      assignIdsGo i ts = (List.enumFrom i ts).map (fun p =>
        { p.2 with
          attrs := setAttr p.2.attrs "id" ("table-" ++ natToStr (p.1 + 1)) }) := by
  intro ts
  induction ts with
  | nil => intro i; rfl
  | cons t ts ih =>
    intro i
    simp only [assignIdsGo, List.enumFrom, List.map_cons, ih]

/-- Claim C9 (amended): the cataloguing step is the pipeline's only document
mutation; it overwrites each table's `id` attribute with its ordinal id and
changes nothing else (rows and preceding siblings are untouched).  The
remaining operations are modelled as pure readers of the document. -/
theorem C9_document_mutation :
    (∀ ts : List RawTable,
      assignIds ts = ts.enum.map (fun p =>
        { p.2 with
          attrs := setAttr p.2.attrs "id" ("table-" ++ natToStr (p.1 + 1)) })) ∧
    (∀ ts : List RawTable,
      (assignIds ts).map RawTable.rows = ts.map RawTable.rows) ∧
    (∀ ts : List RawTable,
      (assignIds ts).map RawTable.prevSiblings =
        ts.map RawTable.prevSiblings) := by
  have hmain := assignIdsGo_eq_enumFrom
  refine ⟨fun ts => hmain ts 0, fun ts => ?_, fun ts => ?_⟩
  · rw [assignIds, hmain ts 0, List.map_map]
    have : ∀ (i : ℕ),
        (List.enumFrom i ts).map (fun p => p.2.rows) = ts.map RawTable.rows := by
      induction ts with
      | nil => intro i; rfl
      | cons t ts ih => intro i; simp [List.enumFrom, ih]
    exact this 0
  · rw [assignIds, hmain ts 0, List.map_map]
    have : ∀ (i : ℕ),
        (List.enumFrom i ts).map (fun p => p.2.prevSiblings) =
          ts.map RawTable.prevSiblings := by
      induction ts with
      | nil => intro i; rfl
      | cons t ts ih => intro i; simp [List.enumFrom, ih]
    exact this 0

/-! ## Claim C6 — counterexample -/

/-- Claim C6, counterexample.  A table selected by the fallback scorer whose
header resolves to zero fiscal periods is recorded as `'Found (Fallback)'`:
the status `IdentifiedButFailed` does not exist in the code, and the scrape
of the selected table emits nothing. -/
theorem C6_counterexample :
    parse_table_headers noPeriodTableFix.rows = [] ∧
    find_and_scrape_financial_statements_fallback [noPeriodTableFix]
        [("BALANCE_SHEET_STATEMENT", bsTermsFix)] ctxFix []
        (initialReport ["BALANCE_SHEET_STATEMENT"]) =
      ([], [("BALANCE_SHEET_STATEMENT", "Found (Fallback)")]) ∧
    ("Found (Fallback)" : String) ≠ "IdentifiedButFailed" := by decide

/-! ## Claim C1 — positional period assignment in the row extractor -/

lemma emitPoints_length :
    ∀ (periods vs : List String) (units : String) (ctx : Context) (tno : ℕ)
      (href metric cat : String),
      periods.length = vs.length →
      (emitPoints periods vs units ctx tno href metric cat).length =
        (vs.filter (fun s => (parse_financial_value s).isSome)).length := by
  intro periods
  induction periods with
  | nil =>
    intro vs units ctx tno href metric cat h
    cases vs with
    | nil => rfl
    | cons v vs => simp at h
  | cons p ps ih =>
    intro vs units ctx tno href metric cat h
    cases vs with
    | nil => simp at h
    | cons v vs =>
      simp only [List.length_cons, Nat.succ.injEq] at h
      simp only [emitPoints, List.zip_cons_cons, List.filterMap_cons,
        List.filter_cons]
      cases hv : parse_financial_value v with
      | none =>
        simp only [hv, Option.isSome_none, Bool.false_eq_true, if_false]
        exact ih vs units ctx tno href metric cat h
      | some w =>
        simp only [hv, Option.isSome_some, if_true, List.length_cons]
        rw [← emitPoints]
        exact congrArg Nat.succ (ih vs units ctx tno href metric cat h)

lemma emitPoints_mem :
    ∀ (periods vs : List String) (units : String) (ctx : Context) (tno : ℕ)
      (href metric cat : String) (dp : DataPoint),
      dp ∈ emitPoints periods vs units ctx tno href metric cat →
      ∃ (i : ℕ) (h1 : i < periods.length) (h2 : i < vs.length),
        dp.fiscal_period = periods.get ⟨i, h1⟩ ∧
        parse_financial_value (vs.get ⟨i, h2⟩) = some dp.value := by
  intro periods
  induction periods with
  | nil =>
    intro vs units ctx tno href metric cat dp hdp
    simp [emitPoints] at hdp
  | cons p ps ih =>
    intro vs units ctx tno href metric cat dp hdp
    cases vs with
    | nil => simp [emitPoints] at hdp
    | cons v vs =>
      simp only [emitPoints, List.zip_cons_cons, List.filterMap_cons] at hdp
      cases hv : parse_financial_value v with
      | none =>
        rw [hv] at hdp
        obtain ⟨i, h1, h2, hfp, hval⟩ :=
          ih vs units ctx tno href metric cat dp hdp
        exact ⟨i + 1, Nat.succ_lt_succ h1, Nat.succ_lt_succ h2, hfp, hval⟩
      | some w =>
        rw [hv] at hdp
        rcases List.mem_cons.mp hdp with hdp | hdp
        · subst hdp
          exact ⟨0, Nat.succ_pos _, Nat.succ_pos _, rfl, hv⟩
        · obtain ⟨i, h1, h2, hfp, hval⟩ :=
            ih vs units ctx tno href metric cat dp hdp
          exact ⟨i + 1, Nat.succ_lt_succ h1, Nat.succ_lt_succ h2, hfp, hval⟩

lemma processRow_points_mem :
    ∀ (periods : List String) (units : String) (ctx : Context) (tno : ℕ)
      (href cat : String) (cells : List String) (dp : DataPoint),
      dp ∈ (processRow periods units ctx tno href cat cells).1 →
      ∃ (i : ℕ) (h1 : i < periods.length),
        dp.fiscal_period = periods.get ⟨i, h1⟩ := by
  intro periods units ctx tno href cat cells dp hdp
  cases cells with
  | nil => simp [processRow] at hdp
  | cons metric rest =>
    by_cases hm : metric = "" ∨ pyIsDigit metric = true
    · rcases hm with hm | hm
      · simp [processRow, hm] at hdp
      · simp [processRow, hm] at hdp
    · push_neg at hm
      have hm1 : ¬ metric = "" := hm.1
      have hm2 : pyIsDigit metric = false := by
        cases hb : pyIsDigit metric with
        | true => exact absurd hb hm.2
        | false => rfl
      cases hvs : extractValues (rowText rest) with
      | nil => simp [processRow, hm1, hm2, hvs] at hdp
      | cons v vs =>
        by_cases hlen : (extractValues (rowText rest)).length = periods.length
        · simp only [processRow, hm1, hm2, hvs] at hdp
          rw [hvs] at hlen
          simp only [List.isEmpty_cons, Bool.false_eq_true, if_false, hlen,
            if_true] at hdp
          obtain ⟨i, h1, h2, hfp, hval⟩ :=
            emitPoints_mem periods (v :: vs) units ctx tno href metric cat dp
              hdp
          exact ⟨i, h1, hfp⟩
        · simp only [processRow, hm1, hm2, hvs] at hdp
          rw [hvs] at hlen
          simp only [List.isEmpty_cons, Bool.false_eq_true, if_false, hlen,
            if_false] at hdp
          simp at hdp

lemma processRows_points_mem :
    ∀ (periods : List String) (units : String) (ctx : Context) (tno : ℕ)
      (href : String) (rows : List (List String)) (cat : String)
      (dp : DataPoint),
      dp ∈ processRows periods units ctx tno href rows cat →
      ∃ (i : ℕ) (h1 : i < periods.length),
        dp.fiscal_period = periods.get ⟨i, h1⟩ := by
  intro periods units ctx tno href rows
  induction rows with
  | nil => intro cat dp hdp; simp [processRows] at hdp
  | cons r rs ih =>
    intro cat dp hdp
    simp only [processRows, List.mem_append] at hdp
    rcases hdp with hdp | hdp
    · exact processRow_points_mem periods units ctx tno href cat r dp hdp
    · exact ih _ dp hdp

/-- Claim C1 (confirmed): with a non-empty, non-numeric label, a row whose
token count equals the period count emits exactly one data point per
parseable token, assigned the period at the token's index; a row with a
non-zero token count different from the period count emits nothing; and every
data point a table scrape emits carries a period drawn from the table's
resolved period sequence. -/
theorem C1_row_extraction :
    (∀ (periods : List String) (units : String) (ctx : Context) (tno : ℕ)
        (href cat metric : String) (rest : List String),
      ¬ metric = "" → pyIsDigit metric = false →
      (extractValues (rowText rest)).length = periods.length →
      extractValues (rowText rest) ≠ [] →
      ((processRow periods units ctx tno href cat (metric :: rest)).1.length =
         ((extractValues (rowText rest)).filter
           (fun s => (parse_financial_value s).isSome)).length ∧
       ∀ dp ∈ (processRow periods units ctx tno href cat (metric :: rest)).1,
         ∃ (i : ℕ) (h1 : i < periods.length)
           (h2 : i < (extractValues (rowText rest)).length),
           dp.fiscal_period = periods.get ⟨i, h1⟩ ∧
           parse_financial_value
             ((extractValues (rowText rest)).get ⟨i, h2⟩) = some dp.value)) ∧
    (∀ (periods : List String) (units : String) (ctx : Context) (tno : ℕ)
        (href cat metric : String) (rest : List String),
      extractValues (rowText rest) ≠ [] →
      (extractValues (rowText rest)).length ≠ periods.length →
      (processRow periods units ctx tno href cat (metric :: rest)).1 = []) ∧
    (∀ (t : STable) (ctx : Context) (href : Option String) (dp : DataPoint),
      dp ∈ scrape_table t ctx href →
      ∃ (i : ℕ) (h1 : i < (parse_table_headers t.rows).length),
        dp.fiscal_period = (parse_table_headers t.rows).get ⟨i, h1⟩) := by
  refine ⟨?_, ?_, ?_⟩
  · intro periods units ctx tno href cat metric rest hm1 hm2 hlen hne
    have hrow :
        (processRow periods units ctx tno href cat (metric :: rest)).1 =
          emitPoints periods (extractValues (rowText rest)) units ctx tno
            href metric cat := by
      cases hvs : extractValues (rowText rest) with
      | nil => exact absurd hvs hne
      | cons v vs =>
        rw [hvs] at hlen
        simp only [processRow, hm1, hm2, hvs, List.isEmpty_cons,
          Bool.false_eq_true, if_false, hlen, if_true]
        simp
    rw [hrow]
    constructor
    · exact emitPoints_length periods _ units ctx tno href metric cat
        hlen.symm
    · intro dp hdp
      exact emitPoints_mem periods _ units ctx tno href metric cat dp hdp
  · intro periods units ctx tno href cat metric rest hne hlen
    by_cases hm : metric = "" ∨ pyIsDigit metric = true
    · rcases hm with hm | hm
      · simp [processRow, hm]
      · simp [processRow, hm]
    · push_neg at hm
      have hm2 : pyIsDigit metric = false := by
        cases hb : pyIsDigit metric with
        | true => exact absurd hb hm.2
        | false => rfl
      cases hvs : extractValues (rowText rest) with
      | nil => exact absurd hvs hne
      | cons v vs =>
        rw [hvs] at hlen
        simp only [processRow, hm.1, hm2, hvs, List.isEmpty_cons,
          Bool.false_eq_true, if_false, hlen]
        simp
  · intro t ctx href dp hdp
    by_cases hp : (parse_table_headers t.rows).isEmpty
    · simp only [scrape_table, hp, if_true] at hdp
      simp at hdp
    · simp only [scrape_table, hp, Bool.false_eq_true, if_false] at hdp
      exact processRows_points_mem _ _ _ _ _ _ _ dp hdp

/-- Claim C1, witness: a row with two tokens against two periods emits two
points, each with the period at its token's index; a row with three tokens
against two periods emits nothing. -/
theorem C1_row_extraction_witness :
    ((processRow ["2024", "2023"] "N/A" ctxFix 1 "#t" "" ["Cash", "10",
        "(20)"]).1.length =
       ((extractValues (rowText ["10", "(20)"])).filter
         (fun s => (parse_financial_value s).isSome)).length ∧
      ∀ dp ∈ (processRow ["2024", "2023"] "N/A" ctxFix 1 "#t" ""
          ["Cash", "10", "(20)"]).1,
        ∃ (i : ℕ) (h1 : i < (["2024", "2023"] : List String).length)
          (h2 : i < (extractValues (rowText ["10", "(20)"])).length),
          dp.fiscal_period = (["2024", "2023"] : List String).get ⟨i, h1⟩ ∧
          parse_financial_value
            ((extractValues (rowText ["10", "(20)"])).get ⟨i, h2⟩) =
            some dp.value) ∧
    (processRow ["2024", "2023"] "N/A" ctxFix 1 "#t" ""
      ["Cash", "1", "2", "3"]).1 = [] :=
  ⟨C1_row_extraction.1 ["2024", "2023"] "N/A" ctxFix 1 "#t" "" "Cash"
     ["10", "(20)"] (by decide) (by decide) (by decide) (by decide),
   C1_row_extraction.2.1 ["2024", "2023"] "N/A" ctxFix 1 "#t" "" "Cash"
     ["1", "2", "3"] (by decide) (by decide)⟩

/-! ## Lemmas about the guided and fallback folds -/

lemma guidedFold_cons (base : Context) (ms : MappedStatement)
    (rest : List MappedStatement) (acc : ℕ × List DataPoint × Report) :
    guidedFold base (ms :: rest) acc =
      guidedFold base rest
        (if ms.section_tables.isEmpty then acc
         else if (guidedSectionPoints base ms).isEmpty then
           (acc.1, acc.2.1 ++ guidedSectionPoints base ms, acc.2.2)
         else (acc.1 + 1, acc.2.1 ++ guidedSectionPoints base ms,
           setStatus acc.2.2 ms.statement_type "Found (ToC-Guided)")) := rfl

lemma guidedFold_count :
    ∀ (base : Context) (mapped : List MappedStatement) (n : ℕ)
      (pts : List DataPoint) (rep : Report),
      (guidedFold base mapped (n, pts, rep)).1 =
        n + guidedCountL base mapped := by
  intro base mapped
  induction mapped with
  | nil => intro n pts rep; simp [guidedFold, guidedCountL]
  | cons ms rest ih =>
    intro n pts rep
    rw [guidedFold_cons]
    by_cases h1 : ms.section_tables.isEmpty
    · simp only [guidedCountL, h1, if_true]
      exact ih n pts rep
    · by_cases h2 : (guidedSectionPoints base ms).isEmpty
      · simp only [guidedCountL, h1, Bool.false_eq_true, if_false, h2,
          if_true]
        exact ih n _ rep
      · simp only [guidedCountL, h1, Bool.false_eq_true, if_false, h2]
        rw [ih (n + 1) _ _]
        omega

lemma guidedFold_stable :
    ∀ (base : Context) (mapped : List MappedStatement) (n : ℕ)
      (pts : List DataPoint) (rep : Report),
      guidedCountL base mapped = 0 →
      guidedFold base mapped (n, pts, rep) = (n, pts, rep) := by
  intro base mapped
  induction mapped with
  | nil => intro n pts rep _; rfl
  | cons ms rest ih =>
    intro n pts rep hc
    rw [guidedFold_cons]
    by_cases h1 : ms.section_tables.isEmpty
    · simp only [guidedCountL, h1, if_true] at hc
      simp only [h1, if_true]
      exact ih n pts rep hc
    · by_cases h2 : (guidedSectionPoints base ms).isEmpty
      · simp only [guidedCountL, h1, Bool.false_eq_true, if_false, h2,
          if_true] at hc
        have hnil : guidedSectionPoints base ms = [] := by
          cases hg : guidedSectionPoints base ms with
          | nil => rfl
          | cons a l => rw [hg] at h2; simp at h2
        simp only [h1, Bool.false_eq_true, if_false, h2, if_true, hnil,
          List.append_nil]
        exact ih n pts rep hc
      · simp only [guidedCountL, h1, Bool.false_eq_true, if_false, h2] at hc
        omega

lemma guidedFold_lookup_ne :
    ∀ (base : Context) (mapped : List MappedStatement)
      (acc : ℕ × List DataPoint × Report) (k : String),
      (∀ ms ∈ mapped, ms.statement_type ≠ k) →
      lookupStatus (guidedFold base mapped acc).2.2 k =
        lookupStatus acc.2.2 k := by
  intro base mapped
  induction mapped with
  | nil => intro acc k _; rfl
  | cons ms rest ih =>
    intro acc k hk
    rw [guidedFold_cons]
    have hrest : ∀ ms' ∈ rest, ms'.statement_type ≠ k := by
      intro ms' h; exact hk ms' (List.mem_cons_of_mem ms h)
    by_cases h1 : ms.section_tables.isEmpty
    · simp only [h1, if_true]; exact ih acc k hrest
    · by_cases h2 : (guidedSectionPoints base ms).isEmpty
      · simp only [h1, Bool.false_eq_true, if_false, h2, if_true]
        exact ih _ k hrest
      · simp only [h1, Bool.false_eq_true, if_false, h2]
        rw [ih _ k hrest]
        exact lookupStatus_setStatus_ne acc.2.2 k ms.statement_type _
          (hk ms (List.mem_cons_self ms rest))

lemma guidedFold_lookup_mem :
    ∀ (base : Context) (mapped : List MappedStatement)
      (acc : ℕ × List DataPoint × Report) (ms : MappedStatement),
      ms ∈ mapped →
      (mapped.map MappedStatement.statement_type).Nodup →
      ((ms.section_tables = [] ∨ guidedSectionPoints base ms = []) →
        lookupStatus (guidedFold base mapped acc).2.2 ms.statement_type =
          lookupStatus acc.2.2 ms.statement_type) ∧
      (ms.section_tables ≠ [] → guidedSectionPoints base ms ≠ [] →
        lookupStatus (guidedFold base mapped acc).2.2 ms.statement_type =
          "Found (ToC-Guided)") := by
  intro base mapped
  induction mapped with
  | nil => intro acc ms h; exact absurd h (List.not_mem_nil ms)
  | cons m rest ih =>
    intro acc ms hmem hnd
    simp only [List.map_cons, List.nodup_cons] at hnd
    obtain ⟨hmnot, hndrest⟩ := hnd
    have hrest_ne : ∀ ms' ∈ rest, ms'.statement_type ≠ m.statement_type := by
      intro ms' h heq
      exact hmnot (heq ▸ List.mem_map_of_mem MappedStatement.statement_type h)
    rcases List.mem_cons.mp hmem with heq | hmem'
    · subst heq
      rw [guidedFold_cons]
      constructor
      · intro hcase
        by_cases h1 : ms.section_tables.isEmpty
        · simp only [h1, if_true]
          exact guidedFold_lookup_ne base rest acc ms.statement_type hrest_ne
        · by_cases h2 : (guidedSectionPoints base ms).isEmpty
          · simp only [h1, Bool.false_eq_true, if_false, h2, if_true]
            exact guidedFold_lookup_ne base rest _ ms.statement_type hrest_ne
          · exfalso
            rcases hcase with hc | hc
            · rw [hc] at h1; exact h1 (by simp)
            · rw [hc] at h2; exact h2 (by simp)
      · intro hs1 hs2
        have h1 : ms.section_tables.isEmpty = false := by
          cases hg : ms.section_tables with
          | nil => exact absurd hg hs1
          | cons a l => rfl
        have h2 : (guidedSectionPoints base ms).isEmpty = false := by
          cases hg : guidedSectionPoints base ms with
          | nil => exact absurd hg hs2
          | cons a l => rfl
        simp only [h1, Bool.false_eq_true, if_false, h2]
        rw [guidedFold_lookup_ne base rest _ ms.statement_type hrest_ne]
        exact lookupStatus_setStatus_eq acc.2.2 ms.statement_type _
    · have hms_ne : ms.statement_type ≠ m.statement_type := by
        intro heq
        exact hmnot
          (heq ▸ List.mem_map_of_mem MappedStatement.statement_type hmem')
      rw [guidedFold_cons]
      obtain ⟨hihA, hihB⟩ := ih _ ms hmem' hndrest
      refine ⟨fun hcase => ?_, hihB⟩
      rw [hihA hcase]
      by_cases h1 : m.section_tables.isEmpty
      · simp only [h1, if_true]
      · by_cases h2 : (guidedSectionPoints base m).isEmpty
        · simp only [h1, Bool.false_eq_true, if_false, h2, if_true]
        · simp only [h1, Bool.false_eq_true, if_false, h2]
          exact lookupStatus_setStatus_ne acc.2.2 ms.statement_type
            m.statement_type _ (Ne.symm hms_ne)

lemma fallbackFold_cons (base : Context) (pr : String × ScoredTable)
    (rest : List (String × ScoredTable)) (acc : List DataPoint × Report) :
    fallbackFold base (pr :: rest) acc =
      fallbackFold base rest
        (acc.1 ++ scrape_table pr.2.table
           { base with table_description := statementTitle pr.1 } none,
         setStatus acc.2 pr.1 "Found (Fallback)") := rfl

lemma fallbackFold_lookup_ne :
    ∀ (base : Context) (found : List (String × ScoredTable))
      (acc : List DataPoint × Report) (k : String),
      (∀ pr ∈ found, pr.1 ≠ k) →
      lookupStatus (fallbackFold base found acc).2 k =
        lookupStatus acc.2 k := by
  intro base found
  induction found with
  | nil => intro acc k _; rfl
  | cons pr rest ih =>
    intro acc k hk
    rw [fallbackFold_cons]
    rw [ih _ k (fun pr' h => hk pr' (List.mem_cons_of_mem pr h))]
    exact lookupStatus_setStatus_ne acc.2 k pr.1 _
      (hk pr (List.mem_cons_self pr rest))

lemma fallbackFold_lookup_mem :
    ∀ (base : Context) (found : List (String × ScoredTable))
      (acc : List DataPoint × Report) (pr : String × ScoredTable),
      pr ∈ found → (found.map Prod.fst).Nodup →
      lookupStatus (fallbackFold base found acc).2 pr.1 =
        "Found (Fallback)" := by
  intro base found
  induction found with
  | nil => intro acc pr h; exact absurd h (List.not_mem_nil pr)
  | cons q rest ih =>
    intro acc pr hmem hnd
    simp only [List.map_cons, List.nodup_cons] at hnd
    obtain ⟨hqnot, hndrest⟩ := hnd
    rcases List.mem_cons.mp hmem with heq | hmem'
    · subst heq
      rw [fallbackFold_cons]
      have hrest_ne : ∀ pr' ∈ rest, pr'.1 ≠ pr.1 := by
        intro pr' h heq
        exact hqnot (heq ▸ List.mem_map_of_mem Prod.fst h)
      rw [fallbackFold_lookup_ne base rest _ pr.1 hrest_ne]
      exact lookupStatus_setStatus_eq acc.2 pr.1 _
    · rw [fallbackFold_cons]
      exact ih _ pr hmem' hndrest

lemma assignGo_keys_sublist :
    ∀ (cands : List ScoredTable) (cats : List String)
      (acc : List (String × ScoredTable)),
      List.Sublist ((assignGo cands cats acc).map Prod.fst)
        (acc.map Prod.fst ++ cats) := by
  intro cands cats
  induction cats with
  | nil => intro acc; simp [assignGo]
  | cons cat rest ih =>
    intro acc
    have hstep : List.Sublist (acc.map Prod.fst ++ rest)
        (acc.map Prod.fst ++ cat :: rest) :=
      List.Sublist.append_left ((List.Sublist.refl rest).cons cat) _
    simp only [assignGo]
    cases hpick : pickBest cands (acc.map (fun p => p.2.table)) cat with
    | none => exact (ih acc).trans hstep
    | some b =>
      by_cases h10 : 10 < lookupScore b.scores cat
      · simp only [h10, if_true]
        have := ih (acc ++ [(cat, b)])
        rw [List.map_append] at this
        simpa using this
      · simp only [h10, if_false]
        exact (ih acc).trans hstep

/-! ## Lemmas about the candidate loop and the orchestrator -/

lemma process_guided_scrape_false :
    ∀ (base : Context) (mapped : List MappedStatement)
      (pts : List DataPoint) (rep : Report),
      guidedCountL base mapped = 0 →
      process_guided_scrape base mapped pts rep = (false, pts, rep) := by
  intro base mapped pts rep hc
  simp only [process_guided_scrape, guidedFold_stable base mapped 0 pts rep hc]
  simp

lemma process_guided_scrape_fst :
    ∀ (base : Context) (mapped : List MappedStatement)
      (pts : List DataPoint) (rep : Report),
      (process_guided_scrape base mapped pts rep).1 =
        decide (0 < guidedCountL base mapped) := by
  intro base mapped pts rep
  simp only [process_guided_scrape, guidedFold_count, Nat.zero_add]

lemma tryCandidates_error_rep :
    ∀ (base : Context) (cands : List TocCandidate) (pts : List DataPoint)
      (rep rep' : Report),
      tryCandidates base cands pts rep = .error rep' → rep' = rep := by
  intro base cands
  induction cands with
  | nil =>
    intro pts rep rep' h
    simp [tryCandidates] at h
  | cons c rest ih =>
    intro pts rep rep' h
    by_cases hidx : c.index_ok
    · simp only [tryCandidates, hidx, Bool.not_true, Bool.false_eq_true,
        if_false] at h
      cases hval : c.validate with
      | error e =>
        rw [hval] at h
        cases e
        injection h with h
        exact h.symm
      | ok vb =>
        rw [hval] at h
        cases vb with
        | false => exact ih pts rep rep' h
        | true =>
          cases hmap : c.mapped with
          | error e =>
            rw [hmap] at h
            cases e
            injection h with h
            exact h.symm
          | ok ms =>
            rw [hmap] at h
            dsimp only at h
            by_cases hg : (process_guided_scrape base ms pts rep).1 = true
            · rw [if_pos hg] at h
              exact absurd h (by simp)
            · rw [if_neg hg] at h
              have hc0 : guidedCountL base ms = 0 := by
                rw [process_guided_scrape_fst] at hg
                simpa using hg
              rw [process_guided_scrape_false base ms pts rep hc0] at h
              exact ih pts rep rep' h
    · have hidx2 : (!c.index_ok) = true := by
        cases hb : c.index_ok with
        | true => exact absurd hb hidx
        | false => rfl
      simp only [tryCandidates, hidx2, if_true] at h
      exact ih pts rep rep' h

/-- The three status strings the code can record. -/
def statusOK (v : String) : Prop :=
  v = "Missing" ∨ v = "Found (ToC-Guided)" ∨ v = "Found (Fallback)"

lemma reportOK_initial (cats : List String) :
    ∀ p ∈ initialReport cats, statusOK p.2 := by
  intro p hp
  simp only [initialReport, List.mem_map] at hp
  obtain ⟨c, _, hc⟩ := hp
  rw [← hc]
  exact Or.inl rfl

lemma reportOK_setStatus (r : Report) (k v : String)
    (hr : ∀ p ∈ r, statusOK p.2) (hv : statusOK v) :
    ∀ p ∈ setStatus r k v, statusOK p.2 := by
  intro p hp
  rcases setStatus_value_mem r k v p hp with h | h
  · rw [h]; exact hv
  · exact hr p h

lemma reportOK_guidedFold :
    ∀ (base : Context) (mapped : List MappedStatement)
      (acc : ℕ × List DataPoint × Report),
      (∀ p ∈ acc.2.2, statusOK p.2) →
      ∀ p ∈ (guidedFold base mapped acc).2.2, statusOK p.2 := by
  intro base mapped
  induction mapped with
  | nil => intro acc h; exact h
  | cons ms rest ih =>
    intro acc h
    rw [guidedFold_cons]
    by_cases h1 : ms.section_tables.isEmpty
    · simp only [h1, if_true]; exact ih acc h
    · by_cases h2 : (guidedSectionPoints base ms).isEmpty
      · simp only [h1, Bool.false_eq_true, if_false, h2, if_true]
        exact ih _ h
      · simp only [h1, Bool.false_eq_true, if_false, h2]
        exact ih _ (reportOK_setStatus acc.2.2 ms.statement_type _ h
          (Or.inr (Or.inl rfl)))

lemma reportOK_fallbackFold :
    ∀ (base : Context) (found : List (String × ScoredTable))
      (acc : List DataPoint × Report),
      (∀ p ∈ acc.2, statusOK p.2) →
      ∀ p ∈ (fallbackFold base found acc).2, statusOK p.2 := by
  intro base found
  induction found with
  | nil => intro acc h; exact h
  | cons pr rest ih =>
    intro acc h
    rw [fallbackFold_cons]
    exact ih _ (reportOK_setStatus acc.2 pr.1 _ h (Or.inr (Or.inr rfl)))

lemma tryCandidates_ok_reportOK :
    ∀ (base : Context) (cands : List TocCandidate) (pts : List DataPoint)
      (rep : Report) (b : Bool) (pts' : List DataPoint) (rep' : Report),
      (∀ p ∈ rep, statusOK p.2) →
      tryCandidates base cands pts rep = .ok (b, pts', rep') →
      ∀ p ∈ rep', statusOK p.2 := by
  intro base cands
  induction cands with
  | nil =>
    intro pts rep b pts' rep' hrep h
    simp only [tryCandidates, Except.ok.injEq] at h
    injection h with hb hrest
    injection hrest with hp hr
    subst hr
    exact hrep
  | cons c rest ih =>
    intro pts rep b pts' rep' hrep h
    by_cases hidx : c.index_ok
    · simp only [tryCandidates, hidx, Bool.not_true, Bool.false_eq_true,
        if_false] at h
      cases hval : c.validate with
      | error e => rw [hval] at h; cases e; exact absurd h (by simp)
      | ok vb =>
        rw [hval] at h
        cases vb with
        | false => exact ih pts rep b pts' rep' hrep h
        | true =>
          cases hmap : c.mapped with
          | error e => rw [hmap] at h; cases e; exact absurd h (by simp)
          | ok ms =>
            rw [hmap] at h
            dsimp only at h
            have hgOK : ∀ p ∈ (process_guided_scrape base ms pts rep).2.2,
                statusOK p.2 :=
              reportOK_guidedFold base ms (0, pts, rep) hrep
            by_cases hg : (process_guided_scrape base ms pts rep).1 = true
            · rw [if_pos hg] at h
              simp only [Except.ok.injEq] at h
              injection h with hb hrest
              injection hrest with hp hr
              subst hr
              exact hgOK
            · rw [if_neg hg] at h
              exact ih _ _ b pts' rep' hgOK h
    · have hidx2 : (!c.index_ok) = true := by
        cases hb : c.index_ok with
        | true => exact absurd hb hidx
        | false => rfl
      simp only [tryCandidates, hidx2, if_true] at h
      exact ih pts rep b pts' rep' hrep h

/-! ## Claim C10 — found marking in the fallback versus the guided path -/

/-- Claim C10 (confirmed): a category whose table the keyword scorer selected
is marked `'Found (Fallback)'` unconditionally — no hypothesis about the
scrape's output is needed; the guided path marks a category
`'Found (ToC-Guided)'` exactly when its section scrape appended at least one
data point, and leaves the category's status untouched otherwise. -/
theorem C10_found_marking :
    (∀ (tables : List STable) (terms_dict : List (String × TermTree))
        (base : Context) (pts0 : List DataPoint) (rep0 : Report)
        (pr : String × ScoredTable),
      (terms_dict.map Prod.fst).Nodup →
      pr ∈ assignGo
        (scoredTables (terms_dict.map (fun p => (p.1, get_all_terms p.2)))
          tables) (terms_dict.map Prod.fst) [] →
      lookupStatus
        (find_and_scrape_financial_statements_fallback tables terms_dict base
          pts0 rep0).2 pr.1 = "Found (Fallback)") ∧
    (∀ (base : Context) (mapped : List MappedStatement)
        (pts0 : List DataPoint) (rep0 : Report) (ms : MappedStatement),
      ms ∈ mapped →
      (mapped.map MappedStatement.statement_type).Nodup →
      (ms.section_tables ≠ [] → guidedSectionPoints base ms ≠ [] →
        lookupStatus (process_guided_scrape base mapped pts0 rep0).2.2
          ms.statement_type = "Found (ToC-Guided)") ∧
      ((ms.section_tables = [] ∨ guidedSectionPoints base ms = []) →
        lookupStatus (process_guided_scrape base mapped pts0 rep0).2.2
          ms.statement_type = lookupStatus rep0 ms.statement_type)) := by
  constructor
  · intro tables terms_dict base pts0 rep0 pr hnd hmem
    have hkeys : ((assignGo
        (scoredTables (terms_dict.map (fun p => (p.1, get_all_terms p.2)))
          tables) (terms_dict.map Prod.fst) []).map Prod.fst).Nodup := by
      have hsub := assignGo_keys_sublist
        (scoredTables (terms_dict.map (fun p => (p.1, get_all_terms p.2)))
          tables) (terms_dict.map Prod.fst) []
      simp only [List.map_nil, List.nil_append] at hsub
      exact List.Nodup.sublist hsub hnd
    exact fallbackFold_lookup_mem base _ (pts0, rep0) pr hmem hkeys
  · intro base mapped pts0 rep0 ms hmem hnd
    obtain ⟨hA, hB⟩ := guidedFold_lookup_mem base mapped (0, pts0, rep0) ms
      hmem hnd
    exact ⟨hB, hA⟩

/-- Claim C10, witness: the fallback marks the zero-period fixture table's
category `'Found (Fallback)'`; in a guided run over two mapped statements the
productive one is marked `'Found (ToC-Guided)'` and the one with an empty
section keeps its `'Missing'` status. -/
theorem C10_found_marking_witness :
    lookupStatus (find_and_scrape_financial_statements_fallback
        [noPeriodTableFix] termsFix ctxFix []
        (initialReport ["BALANCE_SHEET_STATEMENT"])).2
      "BALANCE_SHEET_STATEMENT" = "Found (Fallback)" ∧
    lookupStatus (process_guided_scrape ctxFix [msFix, msEmptyFix] []
        (initialReport ["INCOME_STATEMENT", "CASH_FLOW_STATEMENT"])).2.2
      "INCOME_STATEMENT" = "Found (ToC-Guided)" ∧
    lookupStatus (process_guided_scrape ctxFix [msFix, msEmptyFix] []
        (initialReport ["INCOME_STATEMENT", "CASH_FLOW_STATEMENT"])).2.2
      "CASH_FLOW_STATEMENT" =
      lookupStatus (initialReport ["INCOME_STATEMENT", "CASH_FLOW_STATEMENT"])
        "CASH_FLOW_STATEMENT" :=
  ⟨C10_found_marking.1 [noPeriodTableFix] termsFix ctxFix []
     (initialReport ["BALANCE_SHEET_STATEMENT"])
     ("BALANCE_SHEET_STATEMENT",
      ⟨noPeriodTableFix, [("BALANCE_SHEET_STATEMENT", 11)], 1⟩)
     (by decide) (by decide),
   (C10_found_marking.2 ctxFix [msFix, msEmptyFix] []
     (initialReport ["INCOME_STATEMENT", "CASH_FLOW_STATEMENT"]) msFix
     (by decide) (by decide)).1 (by decide) (by decide),
   (C10_found_marking.2 ctxFix [msFix, msEmptyFix] []
     (initialReport ["INCOME_STATEMENT", "CASH_FLOW_STATEMENT"]) msEmptyFix
     (by decide) (by decide)).2 (Or.inl rfl)⟩

/-! ## Claim C6 — statement statuses -/

lemma filingBody_error_rep :
    ∀ (read : Except Unit Doc) (meta : FilingMeta)
      (terms : List (String × TermTree)) (rep : Report),
      filingBody read meta terms = .error rep →
      rep = initialReport (terms.map Prod.fst) := by
  intro read meta terms rep h
  cases read with
  | error e =>
    cases e
    simp only [filingBody] at h
    injection h with h
    exact h.symm
  | ok doc =>
    simp only [filingBody] at h
    cases hped : doc.period_end_date with
    | none => rw [hped] at h; exact absurd h (by simp)
    | some ped =>
      rw [hped] at h
      dsimp only at h
      cases htc : tryCandidates
          ⟨meta.symbol, meta.form_type, meta.date_filed, ped, ""⟩
          doc.tocCandidates [] (initialReport (terms.map Prod.fst)) with
      | error rep' =>
        rw [htc] at h
        dsimp only at h
        injection h with h
        rw [← h]
        exact tryCandidates_error_rep _ _ _ _ rep' htc
      | ok g =>
        rw [htc] at h
        dsimp only at h
        by_cases hb : g.1 = true
        · rw [if_pos hb] at h; exact absurd h (by simp)
        · rw [if_neg hb] at h; exact absurd h (by simp)

lemma filingBody_ok_reportOK :
    ∀ (read : Except Unit Doc) (meta : FilingMeta)
      (terms : List (String × TermTree)) (pts : List DataPoint)
      (rep : Report),
      filingBody read meta terms = .ok (pts, rep) →
      ∀ p ∈ rep, statusOK p.2 := by
  intro read meta terms pts rep h
  cases read with
  | error e => cases e; simp only [filingBody] at h; exact absurd h (by simp)
  | ok doc =>
    simp only [filingBody] at h
    cases hped : doc.period_end_date with
    | none =>
      rw [hped] at h
      dsimp only at h
      injection h with h
      injection h with h1 h2
      rw [← h2]
      exact reportOK_initial _
    | some ped =>
      rw [hped] at h
      dsimp only at h
      cases htc : tryCandidates
          ⟨meta.symbol, meta.form_type, meta.date_filed, ped, ""⟩
          doc.tocCandidates [] (initialReport (terms.map Prod.fst)) with
      | error rep' => rw [htc] at h; exact absurd h (by simp)
      | ok g =>
        rw [htc] at h
        dsimp only at h
        obtain ⟨b, pts', rep'⟩ := g
        have hOK : ∀ p ∈ rep', statusOK p.2 :=
          tryCandidates_ok_reportOK _ _ [] _ b pts' rep'
            (reportOK_initial _) htc
        cases b with
        | true =>
          rw [if_pos rfl] at h
          injection h with h
          injection h with h1 h2
          rw [← h2]
          exact hOK
        | false =>
          rw [if_neg (by simp)] at h
          injection h with h
          have : (find_and_scrape_financial_statements_fallback
              (catalogEntries doc.rawTables) terms
              ⟨meta.symbol, meta.form_type, meta.date_filed, ped, ""⟩
              pts' rep').2 = rep := congrArg Prod.snd h
          rw [← this]
          simp only [find_and_scrape_financial_statements_fallback]
          exact reportOK_fallbackFold _ _ (pts', rep') hOK

/-- Claim C6 (amended): a table the fallback scorer selected for a category
is recorded as `'Found (Fallback)'` even when its header resolves to zero
fiscal periods — the code has no `IdentifiedButFailed` status — and every
status a filing report can carry is one of
`'Missing' | 'Found (ToC-Guided)' | 'Found (Fallback)'`. -/
theorem C6_statement_status :
    (∀ (tables : List STable) (terms_dict : List (String × TermTree))
        (base : Context) (pts0 : List DataPoint) (rep0 : Report)
        (pr : String × ScoredTable),
      (terms_dict.map Prod.fst).Nodup →
      pr ∈ assignGo
        (scoredTables (terms_dict.map (fun p => (p.1, get_all_terms p.2)))
          tables) (terms_dict.map Prod.fst) [] →
      parse_table_headers pr.2.table.rows = [] →
      lookupStatus
          (find_and_scrape_financial_statements_fallback tables terms_dict
            base pts0 rep0).2 pr.1 = "Found (Fallback)" ∧
      lookupStatus
          (find_and_scrape_financial_statements_fallback tables terms_dict
            base pts0 rep0).2 pr.1 ≠ "IdentifiedButFailed") ∧
    (∀ (read : Except Unit Doc) (meta : FilingMeta)
        (terms : List (String × TermTree)) (p : String × String),
      p ∈ (process_single_filing read meta terms).2 → statusOK p.2) := by
  constructor
  · intro tables terms_dict base pts0 rep0 pr hnd hmem _
    have hkeys : ((assignGo
        (scoredTables (terms_dict.map (fun p => (p.1, get_all_terms p.2)))
          tables) (terms_dict.map Prod.fst) []).map Prod.fst).Nodup := by
      have hsub := assignGo_keys_sublist
        (scoredTables (terms_dict.map (fun p => (p.1, get_all_terms p.2)))
          tables) (terms_dict.map Prod.fst) []
      simp only [List.map_nil, List.nil_append] at hsub
      exact List.Nodup.sublist hsub hnd
    have hFF : lookupStatus
        (find_and_scrape_financial_statements_fallback tables terms_dict base
          pts0 rep0).2 pr.1 = "Found (Fallback)" :=
      fallbackFold_lookup_mem base _ (pts0, rep0) pr hmem hkeys
    refine ⟨hFF, ?_⟩
    rw [hFF]
    decide
  · intro read meta terms p hp
    unfold process_single_filing at hp
    cases hbody : filingBody read meta terms with
    | error rep =>
      rw [hbody] at hp
      dsimp only at hp
      rw [filingBody_error_rep read meta terms rep hbody] at hp
      exact reportOK_initial _ p hp
    | ok r =>
      rw [hbody] at hp
      dsimp only at hp
      exact filingBody_ok_reportOK read meta terms r.1 r.2
        (by rw [hbody]) p hp

/-- Claim C6, witness: the fallback run on the zero-period fixture records
`'Found (Fallback)'` (and not `IdentifiedButFailed`), and a concrete
orchestrator run's statuses lie in the three-value codomain. -/
theorem C6_statement_status_witness :
    (lookupStatus
        (find_and_scrape_financial_statements_fallback [noPeriodTableFix]
          termsFix ctxFix []
          (initialReport ["BALANCE_SHEET_STATEMENT"])).2
        "BALANCE_SHEET_STATEMENT" = "Found (Fallback)" ∧
     lookupStatus
        (find_and_scrape_financial_statements_fallback [noPeriodTableFix]
          termsFix ctxFix []
          (initialReport ["BALANCE_SHEET_STATEMENT"])).2
        "BALANCE_SHEET_STATEMENT" ≠ "IdentifiedButFailed") ∧
    statusOK ("BALANCE_SHEET_STATEMENT", "Missing").2 :=
  ⟨C6_statement_status.1 [noPeriodTableFix] termsFix ctxFix []
     (initialReport ["BALANCE_SHEET_STATEMENT"])
     ("BALANCE_SHEET_STATEMENT",
      ⟨noPeriodTableFix, [("BALANCE_SHEET_STATEMENT", 11)], 1⟩)
     (by decide) (by decide) (by decide),
   C6_statement_status.2 (.error ()) metaFix termsFix
     ("BALANCE_SHEET_STATEMENT", "Missing") (by decide)⟩

/-! ## Claim C7 — failure containment -/

/-- Claim C7 (confirmed): a failed file read returns the empty point list and
the all-`Missing` report; a missing fiscal period end date is an early
return with the same value; any exception the body raises is caught and
yields the empty point list with the all-`Missing` report (every fallible
step precedes the first status update); and the worker pool produces one
result per filing regardless. -/
theorem C7_failure_containment :
    (∀ (meta : FilingMeta) (terms : List (String × TermTree)),
      process_single_filing (.error ()) meta terms =
        ([], initialReport (terms.map Prod.fst))) ∧
    (∀ (doc : Doc) (meta : FilingMeta) (terms : List (String × TermTree)),
      doc.period_end_date = none →
      process_single_filing (.ok doc) meta terms =
        ([], initialReport (terms.map Prod.fst))) ∧
    (∀ (read : Except Unit Doc) (meta : FilingMeta)
        (terms : List (String × TermTree)) (rep : Report),
      filingBody read meta terms = .error rep →
      process_single_filing read meta terms = ([], rep) ∧
      rep = initialReport (terms.map Prod.fst)) ∧
    (∀ (filings : List (Except Unit Doc × FilingMeta))
        (terms : List (String × TermTree)),
      (runBatch filings terms).length = filings.length) := by
  refine ⟨?_, ?_, ?_, ?_⟩
  · intro meta terms
    rfl
  · intro doc meta terms h
    simp only [process_single_filing, filingBody, h]
  · intro read meta terms rep h
    constructor
    · simp only [process_single_filing, h]
    · exact filingBody_error_rep read meta terms rep h
  · intro filings terms
    simp [runBatch]

/-- Claim C7, witness: a document without a period end date yields the empty
result with an all-`Missing` report, and a raised read error is contained the
same way. -/
theorem C7_failure_containment_witness :
    process_single_filing (.ok ⟨none, [], []⟩) metaFix termsFix =
      ([], initialReport (termsFix.map Prod.fst)) ∧
    (process_single_filing (.error ()) metaFix termsFix =
      ([], initialReport (termsFix.map Prod.fst)) ∧
     initialReport (termsFix.map Prod.fst) =
       initialReport (termsFix.map Prod.fst)) :=
  ⟨C7_failure_containment.2.1 ⟨none, [], []⟩ metaFix termsFix rfl,
   C7_failure_containment.2.2.1 (.error ()) metaFix termsFix
     (initialReport (termsFix.map Prod.fst)) rfl⟩

/-! ## Claim C5 — candidate order, short-circuit, and fallback entry -/

lemma tryCandidates_cons_skip :
    ∀ (base : Context) (c : TocCandidate) (rest : List TocCandidate)
      (pts : List DataPoint) (rep : Report),
      ¬ attemptRaises c → ¬ attemptSucceeds base c →
      tryCandidates base (c :: rest) pts rep =
        tryCandidates base rest pts rep := by
  intro base c rest pts rep hnr hns
  by_cases hidx : c.index_ok
  · simp only [tryCandidates, hidx, Bool.not_true, Bool.false_eq_true,
      if_false]
    cases hval : c.validate with
    | error e =>
      cases e
      exact absurd ⟨hidx, Or.inl hval⟩ hnr
    | ok vb =>
      cases vb with
      | false => rfl
      | true =>
        cases hmap : c.mapped with
        | error e =>
          cases e
          exact absurd ⟨hidx, Or.inr ⟨hval, hmap⟩⟩ hnr
        | ok ms =>
          have hc0 : guidedCountL base ms = 0 := by
            by_contra hc
            exact hns ⟨hidx, hval, ms, hmap, hc⟩
          simp only []
          rw [process_guided_scrape_false base ms pts rep hc0]
          simp
  · have hidx2 : (!c.index_ok) = true := by
      cases hb : c.index_ok with
      | true => exact absurd hb hidx
      | false => rfl
    simp only [tryCandidates, hidx2, if_true]

lemma tryCandidates_cons_succ :
    ∀ (base : Context) (c : TocCandidate) (rest : List TocCandidate)
      (pts : List DataPoint) (rep : Report) (ms : List MappedStatement),
      c.index_ok = true → c.validate = .ok true → c.mapped = .ok ms →
      guidedCountL base ms ≠ 0 →
      tryCandidates base (c :: rest) pts rep =
        .ok (true, (process_guided_scrape base ms pts rep).2.1,
          (process_guided_scrape base ms pts rep).2.2) := by
  intro base c rest pts rep ms hidx hval hmap hcount
  simp only [tryCandidates, hidx, Bool.not_true, Bool.false_eq_true,
    if_false, hval, hmap]
  have hg : (process_guided_scrape base ms pts rep).1 = true := by
    rw [process_guided_scrape_fst]
    simpa using Nat.pos_of_ne_zero hcount
  rw [if_pos hg]

lemma tryCandidates_append_skip :
    ∀ (base : Context) (pre rest : List TocCandidate)
      (pts : List DataPoint) (rep : Report),
      (∀ p ∈ pre, ¬ attemptRaises p ∧ ¬ attemptSucceeds base p) →
      tryCandidates base (pre ++ rest) pts rep =
        tryCandidates base rest pts rep := by
  intro base pre
  induction pre with
  | nil => intro rest pts rep _; rfl
  | cons p pre' ih =>
    intro rest pts rep hpre
    have hp := hpre p (List.mem_cons_self p pre')
    rw [List.cons_append,
      tryCandidates_cons_skip base p (pre' ++ rest) pts rep hp.1 hp.2]
    exact ih rest pts rep
      (fun q hq => hpre q (List.mem_cons_of_mem p hq))

lemma tryCandidates_all_fail :
    ∀ (base : Context) (cands : List TocCandidate) (pts : List DataPoint)
      (rep : Report),
      (∀ c ∈ cands, ¬ attemptRaises c ∧ ¬ attemptSucceeds base c) →
      tryCandidates base cands pts rep = .ok (false, pts, rep) := by
  intro base cands pts rep hall
  have := tryCandidates_append_skip base cands [] pts rep hall
  rw [List.append_nil] at this
  rw [this]
  rfl

lemma tryCandidates_finds :
    ∀ (base : Context) (cands : List TocCandidate) (pts : List DataPoint)
      (rep : Report),
      (∀ c ∈ cands, ¬ attemptRaises c) →
      (∃ c ∈ cands, attemptSucceeds base c) →
      ∃ pts' rep',
        tryCandidates base cands pts rep = .ok (true, pts', rep') := by
  intro base cands
  induction cands with
  | nil =>
    intro pts rep _ hex
    obtain ⟨c, hc, _⟩ := hex
    exact absurd hc (List.not_mem_nil c)
  | cons c rest ih =>
    intro pts rep hnr hex
    by_cases hs : attemptSucceeds base c
    · obtain ⟨hidx, hval, ms, hmap, hcount⟩ := hs
      exact ⟨_, _,
        tryCandidates_cons_succ base c rest pts rep ms hidx hval hmap hcount⟩
    · rw [tryCandidates_cons_skip base c rest pts rep
        (hnr c (List.mem_cons_self c rest)) hs]
      refine ih pts rep (fun q hq => hnr q (List.mem_cons_of_mem c hq)) ?_
      obtain ⟨c', hc', hsucc⟩ := hex
      rcases List.mem_cons.mp hc' with heq | hmem
      · subst heq; exact absurd hsucc hs
      · exact ⟨c', hmem, hsucc⟩

lemma process_single_filing_ok_route :
    ∀ (doc : Doc) (meta : FilingMeta) (terms : List (String × TermTree))
      (ped : String) (g : Bool × List DataPoint × Report),
      doc.period_end_date = some ped →
      tryCandidates ⟨meta.symbol, meta.form_type, meta.date_filed, ped, ""⟩
          doc.tocCandidates [] (initialReport (terms.map Prod.fst)) =
        .ok g →
      process_single_filing (.ok doc) meta terms =
        (if g.1 then (g.2.1, g.2.2)
         else find_and_scrape_financial_statements_fallback
           (catalogEntries doc.rawTables) terms
           ⟨meta.symbol, meta.form_type, meta.date_filed, ped, ""⟩ g.2.1
           g.2.2) := by
  intro doc meta terms ped g hped htc
  simp only [process_single_filing, filingBody, hped]
  rw [htc]
  cases hb : g.1 with
  | true => simp [hb]
  | false => simp [hb]

/-- Claim C5 (confirmed): ToC candidates are tried in discovery order and no
candidate after the first successful attempt is ever consulted (the result
does not depend on the candidates after it); with no oracle exceptions, the
keyword-scorer fallback runs exactly when no candidate attempt resolved any
statement category (in particular when no candidate exists). -/
theorem C5_candidate_routing :
    (∀ (base : Context) (pre : List TocCandidate) (c : TocCandidate)
        (post : List TocCandidate) (pts : List DataPoint) (rep : Report),
      (∀ p ∈ pre, ¬ attemptRaises p ∧ ¬ attemptSucceeds base p) →
      attemptSucceeds base c →
      tryCandidates base (pre ++ c :: post) pts rep =
        tryCandidates base (pre ++ [c]) pts rep) ∧
    (∀ (doc : Doc) (meta : FilingMeta) (terms : List (String × TermTree))
        (ped : String),
      doc.period_end_date = some ped →
      (∀ c ∈ doc.tocCandidates, ¬ attemptRaises c) →
      ((∀ c ∈ doc.tocCandidates,
          ¬ attemptSucceeds
            ⟨meta.symbol, meta.form_type, meta.date_filed, ped, ""⟩ c) →
        process_single_filing (.ok doc) meta terms =
          find_and_scrape_financial_statements_fallback
            (catalogEntries doc.rawTables) terms
            ⟨meta.symbol, meta.form_type, meta.date_filed, ped, ""⟩ []
            (initialReport (terms.map Prod.fst))) ∧
      ((∃ c ∈ doc.tocCandidates,
          attemptSucceeds
            ⟨meta.symbol, meta.form_type, meta.date_filed, ped, ""⟩ c) →
        ∃ pts' rep',
          tryCandidates
              ⟨meta.symbol, meta.form_type, meta.date_filed, ped, ""⟩
              doc.tocCandidates [] (initialReport (terms.map Prod.fst)) =
            .ok (true, pts', rep') ∧
          process_single_filing (.ok doc) meta terms = (pts', rep'))) := by
  constructor
  · intro base pre c post pts rep hpre hc
    rw [tryCandidates_append_skip base pre (c :: post) pts rep hpre,
      tryCandidates_append_skip base pre [c] pts rep hpre]
    obtain ⟨hidx, hval, ms, hmap, hcount⟩ := hc
    rw [tryCandidates_cons_succ base c post pts rep ms hidx hval hmap hcount,
      tryCandidates_cons_succ base c [] pts rep ms hidx hval hmap hcount]
  · intro doc meta terms ped hped hnr
    constructor
    · intro hnone
      have htc := tryCandidates_all_fail
        ⟨meta.symbol, meta.form_type, meta.date_filed, ped, ""⟩
        doc.tocCandidates [] (initialReport (terms.map Prod.fst))
        (fun c h => ⟨hnr c h, hnone c h⟩)
      rw [process_single_filing_ok_route doc meta terms ped _ hped htc]
      simp
    · intro hex
      obtain ⟨pts', rep', htc⟩ := tryCandidates_finds
        ⟨meta.symbol, meta.form_type, meta.date_filed, ped, ""⟩
        doc.tocCandidates [] (initialReport (terms.map Prod.fst)) hnr hex
      refine ⟨pts', rep', htc, ?_⟩
      rw [process_single_filing_ok_route doc meta terms ped _ hped htc]
      simp

/-- Claim C5, witness: with a rejected candidate first and a productive
candidate second, the loop's result does not depend on the third
candidate. -/
theorem C5_candidate_routing_witness :
    tryCandidates ctxFix [candFail, candSucc, candPost] []
        (initialReport ["INCOME_STATEMENT"]) =
      tryCandidates ctxFix [candFail, candSucc] []
        (initialReport ["INCOME_STATEMENT"]) :=
  C5_candidate_routing.1 ctxFix [candFail] candSucc [candPost] []
    (initialReport ["INCOME_STATEMENT"])
    (by
      intro p hp
      simp only [List.mem_singleton] at hp
      subst hp
      constructor
      · rintro ⟨h1, h2 | ⟨h2, h3⟩⟩
        · simp [candFail] at h2
        · simp [candFail] at h2
      · rintro ⟨h1, h2, ms, hms, hc⟩
        simp [candFail] at h2)
    ⟨rfl, rfl, [msFix], rfl, by decide⟩

/-! ## Claim C4 — the keyword scorer's selection -/

lemma pickAcc_some_spec (score : ScoredTable → ℕ) :
    ∀ (l : List ScoredTable) (b0 b : ScoredTable),
      pickAcc score (some b0) l = some b →
      (b = b0 ∧ ∀ c ∈ l, score c ≤ score b0) ∨
      (∃ l1 l2, l = l1 ++ b :: l2 ∧ score b0 < score b ∧
        (∀ c ∈ l1, score c < score b) ∧ (∀ c ∈ l2, score c ≤ score b)) := by
  intro l
  induction l with
  | nil =>
    intro b0 b h
    simp only [pickAcc, Option.some.injEq] at h
    exact Or.inl ⟨h.symm, by simp⟩
  | cons c cs ih =>
    intro b0 b h
    simp only [pickAcc] at h
    by_cases hc : score b0 < score c
    · rw [if_pos hc] at h
      rcases ih c b h with ⟨heq, hall⟩ | ⟨l1, l2, hsplit, hlt, hl1, hl2⟩
      · subst heq
        exact Or.inr ⟨[], cs, rfl, hc, by simp, hall⟩
      · refine Or.inr ⟨c :: l1, l2, by rw [hsplit, List.cons_append],
          lt_trans hc hlt, ?_, hl2⟩
        intro x hx
        rcases List.mem_cons.mp hx with hx | hx
        · subst hx; exact hlt
        · exact hl1 x hx
    · rw [if_neg hc] at h
      rcases ih b0 b h with ⟨heq, hall⟩ | ⟨l1, l2, hsplit, hlt, hl1, hl2⟩
      · refine Or.inl ⟨heq, ?_⟩
        intro x hx
        rcases List.mem_cons.mp hx with hx | hx
        · subst hx; exact Nat.le_of_not_lt hc
        · exact hall x hx
      · refine Or.inr ⟨c :: l1, l2, by rw [hsplit, List.cons_append], hlt,
          ?_, hl2⟩
        intro x hx
        rcases List.mem_cons.mp hx with hx | hx
        · subst hx; exact lt_of_le_of_lt (Nat.le_of_not_lt hc) hlt
        · exact hl1 x hx

lemma pickAcc_none_spec (score : ScoredTable → ℕ) :
    ∀ (l : List ScoredTable) (b : ScoredTable),
      pickAcc score none l = some b →
      ∃ l1 l2, l = l1 ++ b :: l2 ∧
        (∀ c ∈ l1, score c < score b) ∧ (∀ c ∈ l2, score c ≤ score b) := by
  intro l b h
  cases l with
  | nil => simp [pickAcc] at h
  | cons c cs =>
    simp only [pickAcc] at h
    rcases pickAcc_some_spec score cs c b h with
      ⟨heq, hall⟩ | ⟨l1, l2, hsplit, hlt, hl1, hl2⟩
    · subst heq
      exact ⟨[], cs, rfl, by simp, hall⟩
    · refine ⟨c :: l1, l2, by rw [hsplit, List.cons_append], ?_, hl2⟩
      intro x hx
      rcases List.mem_cons.mp hx with hx | hx
      · subst hx; exact hlt
      · exact hl1 x hx

lemma pickBest_spec :
    ∀ (cands : List ScoredTable) (claimed : List STable) (cat : String)
      (b : ScoredTable),
      pickBest cands claimed cat = some b →
      b ∈ cands ∧ b.table ∉ claimed ∧
      (∀ c ∈ cands, c.table ∉ claimed →
        lookupScore c.scores cat ≤ lookupScore b.scores cat) ∧
      ∃ l1 l2,
        cands.filter (fun c => decide (c.table ∉ claimed)) = l1 ++ b :: l2 ∧
        (∀ c ∈ l1, lookupScore c.scores cat < lookupScore b.scores cat) ∧
        (∀ c ∈ l2, lookupScore c.scores cat ≤ lookupScore b.scores cat) := by
  intro cands claimed cat b h
  obtain ⟨l1, l2, hsplit, hl1, hl2⟩ :=
    pickAcc_none_spec (fun c => lookupScore c.scores cat) _ b h
  have hbmem : b ∈ cands.filter (fun c => decide (c.table ∉ claimed)) := by
    rw [hsplit]
    exact List.mem_append_right l1 (List.mem_cons_self b l2)
  have hbf := List.mem_filter.mp hbmem
  refine ⟨hbf.1, of_decide_eq_true hbf.2, ?_, l1, l2, hsplit, hl1, hl2⟩
  intro c hc hcl
  have hcf : c ∈ cands.filter (fun c => decide (c.table ∉ claimed)) :=
    List.mem_filter.mpr ⟨hc, decide_eq_true hcl⟩
  rw [hsplit] at hcf
  rcases List.mem_append.mp hcf with hx | hx
  · exact Nat.le_of_lt (hl1 c hx)
  · rcases List.mem_cons.mp hx with hx | hx
    · subst hx; exact Nat.le_refl _
    · exact hl2 c hx

lemma scoredTables_mem :
    ∀ (flat : List (String × List String)) (tables : List STable)
      (c : ScoredTable), c ∈ scoredTables flat tables →
      c.table ∈ tables ∧
      ((((tableText c.table).toList.map Char.toLower).take 500).contains '%')
        = false ∧
      c.scores =
        scoreTable flat ((tableText c.table).toList.map Char.toLower) ∧
      (c.scores.any (fun p => decide (5 < p.2))) = true := by
  intro flat tables c hc
  simp only [scoredTables, List.mem_filterMap] at hc
  obtain ⟨t, ht, hf⟩ := hc
  by_cases hpct :
      ((((tableText t).toList.map Char.toLower).take 500).contains '%') = true
  · rw [if_pos hpct] at hf
    exact absurd hf (by simp)
  · rw [if_neg hpct] at hf
    by_cases hany : ((scoreTable flat
        ((tableText t).toList.map Char.toLower)).any
        (fun p => decide (5 < p.2))) = true
    · rw [if_pos hany] at hf
      injection hf with hf
      subst hf
      refine ⟨ht, ?_, rfl, hany⟩
      cases hb : ((((tableText t).toList.map Char.toLower).take 500).contains
          '%') with
      | true => exact absurd hb hpct
      | false => rfl
    · rw [if_neg hany] at hf
      exact absurd hf (by simp)

lemma assignGo_cons_none (cands : List ScoredTable) (cat : String)
    (rest : List String) (acc : List (String × ScoredTable))
    (h : pickBest cands (acc.map (fun p => p.2.table)) cat = none) :
    assignGo cands (cat :: rest) acc = assignGo cands rest acc := by
  simp only [assignGo, h]

lemma assignGo_cons_some (cands : List ScoredTable) (cat : String)
    (rest : List String) (acc : List (String × ScoredTable))
    (b : ScoredTable)
    (h : pickBest cands (acc.map (fun p => p.2.table)) cat = some b) :
    assignGo cands (cat :: rest) acc =
      if 10 < lookupScore b.scores cat then
        assignGo cands rest (acc ++ [(cat, b)])
      else assignGo cands rest acc := by
  simp only [assignGo, h]

lemma assignGo_acc_mem :
    ∀ (cands : List ScoredTable) (cats : List String)
      (acc : List (String × ScoredTable)) (pr : String × ScoredTable),
      pr ∈ acc → pr ∈ assignGo cands cats acc := by
  intro cands cats
  induction cats with
  | nil => intro acc pr h; exact h
  | cons cat rest ih =>
    intro acc pr h
    cases hpick : pickBest cands (acc.map (fun p => p.2.table)) cat with
    | none =>
      rw [assignGo_cons_none cands cat rest acc hpick]
      exact ih acc pr h
    | some b =>
      rw [assignGo_cons_some cands cat rest acc b hpick]
      by_cases h10 : 10 < lookupScore b.scores cat
      · rw [if_pos h10]
        exact ih _ pr (List.mem_append_left _ h)
      · rw [if_neg h10]
        exact ih acc pr h

lemma assignGo_mem_spec :
    ∀ (cands : List ScoredTable) (cats : List String)
      (acc : List (String × ScoredTable)) (pr : String × ScoredTable),
      pr ∈ assignGo cands cats acc →
      pr ∈ acc ∨
      (pr.1 ∈ cats ∧ 10 < lookupScore pr.2.scores pr.1 ∧
       ∃ claimed : List STable,
         pickBest cands claimed pr.1 = some pr.2 ∧
         ∀ t ∈ claimed,
           ∃ pr' ∈ assignGo cands cats acc, pr'.2.table = t) := by
  intro cands cats
  induction cats with
  | nil => intro acc pr h; exact Or.inl h
  | cons cat rest ih =>
    intro acc pr h
    cases hpick : pickBest cands (acc.map (fun p => p.2.table)) cat with
    | none =>
      rw [assignGo_cons_none cands cat rest acc hpick] at h
      rcases ih acc pr h with h2 | ⟨hcats, h10, claimed, hpb, hcl⟩
      · exact Or.inl h2
      · refine Or.inr ⟨List.mem_cons_of_mem cat hcats, h10, claimed, hpb, ?_⟩
        intro t ht
        obtain ⟨pr', hpr', hpt⟩ := hcl t ht
        refine ⟨pr', ?_, hpt⟩
        rw [assignGo_cons_none cands cat rest acc hpick]
        exact hpr'
    | some b =>
      rw [assignGo_cons_some cands cat rest acc b hpick] at h
      by_cases h10 : 10 < lookupScore b.scores cat
      · rw [if_pos h10] at h
        rcases ih _ pr h with hmem | ⟨hcats, h10', claimed, hpb, hcl⟩
        · rcases List.mem_append.mp hmem with hacc | hnew
          · exact Or.inl hacc
          · simp only [List.mem_singleton] at hnew
            subst hnew
            refine Or.inr ⟨List.mem_cons_self _ _, h10,
              acc.map (fun p => p.2.table), hpick, ?_⟩
            intro t ht
            simp only [List.mem_map] at ht
            obtain ⟨q, hq, hqt⟩ := ht
            refine ⟨q, ?_, hqt⟩
            rw [assignGo_cons_some cands cat rest acc b hpick, if_pos h10]
            exact assignGo_acc_mem cands rest _ q (List.mem_append_left _ hq)
        · refine Or.inr ⟨List.mem_cons_of_mem cat hcats, h10', claimed, hpb,
            ?_⟩
          intro t ht
          obtain ⟨pr', hpr', hpt⟩ := hcl t ht
          refine ⟨pr', ?_, hpt⟩
          rw [assignGo_cons_some cands cat rest acc b hpick, if_pos h10]
          exact hpr'
      · rw [if_neg h10] at h
        rcases ih acc pr h with h2 | ⟨hcats, h10', claimed, hpb, hcl⟩
        · exact Or.inl h2
        · refine Or.inr ⟨List.mem_cons_of_mem cat hcats, h10', claimed, hpb,
            ?_⟩
          intro t ht
          obtain ⟨pr', hpr', hpt⟩ := hcl t ht
          refine ⟨pr', ?_, hpt⟩
          rw [assignGo_cons_some cands cat rest acc b hpick, if_neg h10]
          exact hpr'

lemma assignGo_pairwise :
    ∀ (cands : List ScoredTable) (cats : List String)
      (acc : List (String × ScoredTable)),
      acc.Pairwise (fun a b => a.2.table ≠ b.2.table) →
      (assignGo cands cats acc).Pairwise
        (fun a b => a.2.table ≠ b.2.table) := by
  intro cands cats
  induction cats with
  | nil => intro acc h; exact h
  | cons cat rest ih =>
    intro acc h
    cases hpick : pickBest cands (acc.map (fun p => p.2.table)) cat with
    | none =>
      rw [assignGo_cons_none cands cat rest acc hpick]
      exact ih acc h
    | some b =>
      rw [assignGo_cons_some cands cat rest acc b hpick]
      by_cases h10 : 10 < lookupScore b.scores cat
      · rw [if_pos h10]
        refine ih _ (List.pairwise_append.mpr ⟨h, List.pairwise_singleton _ _,
          ?_⟩)
        intro a ha x hx
        simp only [List.mem_singleton] at hx
        subst hx
        intro heq
        have hnot := (pickBest_spec cands _ cat b hpick).2.1
        exact hnot (heq ▸ List.mem_map_of_mem (fun p => p.2.table) ha)
      · rw [if_neg h10]
        exact ih acc h

/-- Claim C4 (confirmed): in the keyword-scorer fallback (candidate lists are
in document order throughout), a table with a `%` in the first 500 characters
of its lowercased text is never a candidate; a candidate always has some
category score above 5; every assigned table was picked with a score above 10
for its category and is, among the candidates not claimed by other
categories, of maximal score with the earliest-in-document-order candidate
winning ties; and no table is assigned to two categories. -/
theorem C4_keyword_scorer :
    ∀ (tables : List STable) (terms_dict : List (String × TermTree)),
      (∀ c ∈ scoredTables
          (terms_dict.map (fun p => (p.1, get_all_terms p.2))) tables,
        c.table ∈ tables ∧
        ((((tableText c.table).toList.map Char.toLower).take 500).contains
          '%') = false ∧
        (c.scores.any (fun p => decide (5 < p.2))) = true) ∧
      (∀ pr ∈ assignGo
          (scoredTables
            (terms_dict.map (fun p => (p.1, get_all_terms p.2))) tables)
          (terms_dict.map Prod.fst) [],
        pr.2 ∈ scoredTables
          (terms_dict.map (fun p => (p.1, get_all_terms p.2))) tables ∧
        10 < lookupScore pr.2.scores pr.1 ∧
        ∃ claimed : List STable,
          (∀ t ∈ claimed,
            ∃ pr' ∈ assignGo
              (scoredTables
                (terms_dict.map (fun p => (p.1, get_all_terms p.2))) tables)
              (terms_dict.map Prod.fst) [], pr'.2.table = t) ∧
          (∀ c ∈ scoredTables
              (terms_dict.map (fun p => (p.1, get_all_terms p.2))) tables,
            c.table ∉ claimed →
            lookupScore c.scores pr.1 ≤ lookupScore pr.2.scores pr.1) ∧
          ∃ l1 l2,
            (scoredTables
              (terms_dict.map (fun p => (p.1, get_all_terms p.2)))
              tables).filter (fun c => decide (c.table ∉ claimed)) =
              l1 ++ pr.2 :: l2 ∧
            (∀ c ∈ l1,
              lookupScore c.scores pr.1 < lookupScore pr.2.scores pr.1)) ∧
      (assignGo
        (scoredTables
          (terms_dict.map (fun p => (p.1, get_all_terms p.2))) tables)
        (terms_dict.map Prod.fst) []).Pairwise
        (fun a b => a.2.table ≠ b.2.table) := by
  intro tables terms_dict
  refine ⟨?_, ?_, ?_⟩
  · intro c hc
    obtain ⟨h1, h2, _, h4⟩ := scoredTables_mem _ tables c hc
    exact ⟨h1, h2, h4⟩
  · intro pr hpr
    rcases assignGo_mem_spec _ _ [] pr hpr with h | ⟨_, h10, claimed, hpb,
      hcl⟩
    · exact absurd h (List.not_mem_nil pr)
    · obtain ⟨hmem, _, hmax, l1, l2, hsplit, hl1, _⟩ :=
        pickBest_spec _ claimed pr.1 pr.2 hpb
      exact ⟨hmem, h10, claimed, hcl, hmax, l1, l2, hsplit, hl1⟩
  · exact assignGo_pairwise _ _ [] List.Pairwise.nil

/-- Claim C4, witness: with a `%`-bearing table first and a clean
high-scoring table second, the clean table is the unique candidate and is
assigned with score 11. -/
theorem C4_keyword_scorer_witness :
    (⟨noPeriodTableFix, [("BALANCE_SHEET_STATEMENT", 11)], 1⟩ : ScoredTable)
        ∈ scoredTables (termsFix.map (fun p => (p.1, get_all_terms p.2)))
          [pctTableFix, noPeriodTableFix] ∧
    ((((tableText noPeriodTableFix).toList.map Char.toLower).take
      500).contains '%') = false ∧
    10 < lookupScore [("BALANCE_SHEET_STATEMENT", 11)]
      "BALANCE_SHEET_STATEMENT" :=
  ⟨by decide,
   ((C4_keyword_scorer [pctTableFix, noPeriodTableFix] termsFix).1
     ⟨noPeriodTableFix, [("BALANCE_SHEET_STATEMENT", 11)], 1⟩
     (by decide)).2.1,
   ((C4_keyword_scorer [pctTableFix, noPeriodTableFix] termsFix).2.1
     ("BALANCE_SHEET_STATEMENT",
      ⟨noPeriodTableFix, [("BALANCE_SHEET_STATEMENT", 11)], 1⟩)
     (by decide)).2.1⟩

end SecScraper
